import Mathlib

/-!
# devspace `pkg/devspace/sync/file_information.go`

A shallow embedding of the listing-line decoder `parseFileInformation` and of
the Go library functions it calls (`strings.Split`, `strconv.Atoi`,
`strconv.ParseUint`, `strconv.ParseInt`, `errors.New`, `errors.Trace`),
followed by theorems about the decoder.

Conventions of the embedding:
* a Go `string` is its sequence of bytes, `List UInt8`; `len` is `List.length`;
* Go `int` is 64 bits wide (`intSize = 64`); `uint64` values are `Nat` reduced
  modulo `2 ^ 64` wherever the Go code can wrap, `int64` values are `Int`
  wrapped by `wrapInt64`;
* a Go call that can stop with a run-time panic (index or slice out of range)
  returns an `Option`, `none` being the panic;
* a Go result pair `(value, error)` is a Lean pair whose second component is
  `none` for a `nil` error.
-/

namespace Sync

/-! ## Go strings -/

/-- A Go string: an immutable sequence of bytes. -/
abbrev GoString := List UInt8

/-- The bytes of a string literal (its UTF-8 encoding). -/
def bytes (s : String) : GoString := s.toList.flatMap String.utf8EncodeChar

/-- Go `strings.Index(s, substr)`: the byte offset of the leftmost occurrence
of `substr` in `s`; `none` stands for `-1`. -/
def Index : GoString → GoString → Option Nat
  | [], substr => if substr.isPrefixOf [] then some 0 else none
  | c :: s, substr =>
    if substr.isPrefixOf (c :: s) then some 0 else (Index s substr).map (· + 1)

/-- The loop of Go `strings.Count(s, substr)` for a non-empty `substr`: each
round finds the leftmost occurrence and continues behind it. The fuel bounds
the number of rounds. -/
def countLoop (substr : GoString) : Nat → GoString → Nat
  | 0, _ => 0
  | fuel + 1, s =>
    match Index s substr with
    | none => 0
    | some i => countLoop substr fuel (s.drop (i + substr.length)) + 1

/-- Go `strings.Count(s, substr)` for a non-empty `substr`: the number of
non-overlapping occurrences. Every round consumes at least one byte, so
`len(s)` rounds are enough (`countLoop_fuel`). -/
def Count (s substr : GoString) : Nat := countLoop substr s.length s

/-- The loop of Go `strings.genSplit(s, sep, 0, n)` for a non-empty `sep`:
at most `n - 1` cuts, the rest of the string being the last part. -/
def genSplitLoop (sep : GoString) : Nat → GoString → List GoString
  | 0, s => [s]
  | cuts + 1, s =>
    match Index s sep with
    | none => [s]
    | some m => s.take m :: genSplitLoop sep cuts (s.drop (m + sep.length))

/-- Go `strings.Split(s, sep)` for a non-empty `sep` (the package only splits
on the constants `"///"` and `","`): `genSplit(s, sep, 0, -1)`, which sets
`n = Count(s, sep) + 1`. -/
def Split (s sep : GoString) : List GoString := genSplitLoop sep (Count s sep) s

/-- Go indexing `t[i]` of a slice: a run-time panic (`none`) when `i` is out of
range. -/
def index {α : Type} (t : List α) (i : Nat) : Option α := t[i]?

/-- Go slicing `s[lo:]` of a string: a run-time panic (`none`) when
`lo > len(s)`. -/
def sliceFrom (s : GoString) (lo : Nat) : Option GoString :=
  if lo ≤ s.length then some (s.drop lo) else none

/-! ## Go `strconv` -/

/-- Width of Go `int` in bits (`strconv.IntSize`). -/
def intSize : Nat := 64

/-- Two's-complement wrap of an integer into the `int64` range. -/
def wrapInt64 (x : Int) : Int := (x + 2 ^ 63) % 2 ^ 64 - 2 ^ 63

/-- The cause carried by a `*strconv.NumError`: `strconv.ErrSyntax`,
`strconv.ErrRange`, or the errors for an invalid base or bit size. -/
inductive ParseErr
  | ErrSyntax
  | ErrRange
  | invalidBase (base : Nat)
  | invalidBitSize (bitSize : Nat)
  deriving DecidableEq, Repr

/-- Go `strconv.NumError`: the failing function, the input and the cause. -/
structure NumError where
  Func : String
  Num : GoString
  Err : ParseErr
  deriving DecidableEq, Repr

/-- Go `strconv.syntaxError(fn, str)`. -/
def syntaxError (fn : String) (str : GoString) : NumError := ⟨fn, str, ParseErr.ErrSyntax⟩

/-- Go `strconv.rangeError(fn, str)`. -/
def rangeError (fn : String) (str : GoString) : NumError := ⟨fn, str, ParseErr.ErrRange⟩

/-- The digit value that the loop of `strconv.ParseUint` assigns to a byte:
`'0'..'9'` are 0..9, `'a'..'z'` and `'A'..'Z'` are 10..35; any other byte is a
syntax error (`none`). -/
def digitOfByte (c : UInt8) : Option Nat :=
  if 48 ≤ c.toNat ∧ c.toNat ≤ 57 then some (c.toNat - 48)
  else if 97 ≤ c.toNat ∧ c.toNat ≤ 122 then some (c.toNat - 97 + 10)
  else if 65 ≤ c.toNat ∧ c.toNat ≤ 90 then some (c.toNat - 65 + 10)
  else none

/-- The digit loop of Go `strconv.ParseUint`: `n` is the `uint64` accumulated
so far, `s0` the whole input (for the error value). -/
def parseUintLoop (base cutoff maxVal : Nat) (s0 : GoString) : Nat → GoString → Nat × Option NumError
  | n, [] => (n, none)
  | n, c :: cs =>
    match digitOfByte c with
    | none => (0, some (syntaxError "ParseUint" s0))
    | some d =>
      if d ≥ base then (0, some (syntaxError "ParseUint" s0))
      else if n ≥ cutoff then (maxVal, some (rangeError "ParseUint" s0))
      else
        let n' := (n * base) % 2 ^ 64
        let n1 := (n' + d) % 2 ^ 64
        if n1 < n' ∨ n1 > maxVal then (maxVal, some (rangeError "ParseUint" s0))
        else parseUintLoop base cutoff maxVal s0 n1 cs

/-- Go `strconv.ParseUint(s, base, bitSize)` for an explicit base. Base 0
(prefix detection and underscores) is not used by this package and is not
modelled: it is answered like any base outside 2..36. -/
def ParseUint (s : GoString) (base bitSize : Nat) : Nat × Option NumError :=
  if s = [] then (0, some (syntaxError "ParseUint" s))
  else if ¬ (2 ≤ base ∧ base ≤ 36) then (0, some ⟨"ParseUint", s, ParseErr.invalidBase base⟩)
  else if bitSize > 64 then (0, some ⟨"ParseUint", s, ParseErr.invalidBitSize bitSize⟩)
  else
    let bitSize := if bitSize = 0 then intSize else bitSize
    let cutoff := (2 ^ 64 - 1) / base + 1
    let maxVal := (2 ^ bitSize + 2 ^ 64 - 1) % 2 ^ 64
    parseUintLoop base cutoff maxVal s 0 s

/-- Go `strconv.ParseInt(s, base, bitSize)` for an explicit base. -/
def ParseInt (s : GoString) (base bitSize : Nat) : Int × Option NumError :=
  match s with
  | [] => (0, some (syntaxError "ParseInt" s))
  | c :: rest =>
    let s0 := s
    let neg := decide (c = 45)
    let s := if c = 43 then rest else if c = 45 then rest else s
    match ParseUint s base bitSize with
    | (un, some err) =>
      if err.Err ≠ ParseErr.ErrRange then (0, some ⟨"ParseInt", s0, err.Err⟩)
      else
        let bitSize := if bitSize = 0 then intSize else bitSize
        let cutoff := 2 ^ (bitSize - 1)
        if !neg ∧ un ≥ cutoff then (Int.ofNat cutoff - 1, some (rangeError "ParseInt" s0))
        else if neg ∧ un > cutoff then (- Int.ofNat cutoff, some (rangeError "ParseInt" s0))
        else
          let n := wrapInt64 (Int.ofNat un)
          (if neg then wrapInt64 (-n) else n, none)
    | (un, none) =>
      let bitSize := if bitSize = 0 then intSize else bitSize
      let cutoff := 2 ^ (bitSize - 1)
      if !neg ∧ un ≥ cutoff then (Int.ofNat cutoff - 1, some (rangeError "ParseInt" s0))
      else if neg ∧ un > cutoff then (- Int.ofNat cutoff, some (rangeError "ParseInt" s0))
      else
        let n := wrapInt64 (Int.ofNat un)
        (if neg then wrapInt64 (-n) else n, none)

/-- The digit loop of the fast path of Go `strconv.Atoi`: `ch -= '0'` is byte
arithmetic, `n = n*10 + int(ch)` is `int` arithmetic. -/
def atoiLoop (s0 : GoString) : Int → GoString → Int × Option NumError
  | n, [] => (n, none)
  | n, ch :: cs =>
    let ch := (ch.toNat + 256 - 48) % 256
    if ch > 9 then (0, some (syntaxError "Atoi" s0))
    else atoiLoop s0 (wrapInt64 (n * 10 + Int.ofNat ch)) cs

/-- Go `strconv.Atoi(s)`: a fast path for short inputs, `ParseInt(s, 10, 0)`
otherwise. -/
def Atoi (s : GoString) : Int × Option NumError :=
  let sLen := s.length
  match s with
  | c :: rest =>
    if (intSize = 32 ∧ (0 < sLen ∧ sLen < 10)) ∨ (intSize = 64 ∧ (0 < sLen ∧ sLen < 19)) then
      let s0 := s
      let signed := decide (c = 45 ∨ c = 43)
      if signed ∧ rest.length < 1 then (0, some (syntaxError "Atoi" s0))
      else
        match atoiLoop s0 0 (if signed then rest else s) with
        | (_, some err) => (0, some err)
        | (n, none) => (if c = 45 then wrapInt64 (-n) else n, none)
    else
      match ParseInt s 10 0 with
      | (i64, some nerr) => (i64, some ⟨"Atoi", nerr.Num, nerr.Err⟩)
      | (i64, none) => (i64, none)
  | [] =>
    -- `sLen = 0` fails the fast-path test
    match ParseInt s 10 0 with
    | (i64, some nerr) => (i64, some ⟨"Atoi", nerr.Num, nerr.Err⟩)
    | (i64, none) => (i64, none)

/-! ## `github.com/juju/errors` -/

/-- The errors `parseFileInformation` returns: `errors.New(message)` and
`errors.Trace(err)` around the `*strconv.NumError` of a failed conversion
(the recorded source location is not part of the model). -/
inductive Error
  | New (message : GoString)
  | Trace (other : NumError)
  deriving DecidableEq, Repr

/-! ## `file_information.go` -/

/-- The constant `IsDirectory uint64 = 040000`. -/
def IsDirectory : Nat := 0o040000

/-- The constant `IsRegularFile uint64 = 0100000`. -/
def IsRegularFile : Nat := 0o100000

/-- The constant `IsSymbolicLink uint64 = 0120000`. -/
def IsSymbolicLink : Nat := 0o120000

/-- The struct `fileInformation`. -/
structure fileInformation where
  Name : GoString
  Size : Int
  Mtime : Int
  IsSymbolicLink : Bool
  IsDirectory : Bool
  RemoteMode : Int
  RemoteUID : Int
  RemoteGID : Int
  deriving DecidableEq, Repr

/-- The function `getFindCommand(destPath)`. The constants `EndAck` and
`ErrorAck` are declared in another file of the package and are parameters
here. -/
def getFindCommand (EndAck ErrorAck destPath : GoString) : GoString :=
  bytes "mkdir -p '" ++ destPath ++ bytes "' && find '" ++ destPath ++
    bytes "' -exec stat -c \"%n///%s,%Y,%f,%a,%u,%g\" \x7b\x7d + 2>/dev/null && echo -n \"" ++
    EndAck ++ bytes "\" || echo \"" ++ ErrorAck ++ bytes "\"\n"

/-- The error of lines 42 and 54. -/
def wrongFileline (fileline : GoString) : Error :=
  Error.New (bytes "[Downstream] Wrong fileline: " ++ fileline)

/-- Lines 57..107 of `parseFileInformation`: the six conversions of the
metadata fields `t`, after `Name` has been set. -/
def parseFields (Name : GoString) (t : List GoString) : Option (Option fileInformation × Option Error) :=
  (index t 0).bind fun t0 =>
  match Atoi t0 with
  | (_, some err) => some (none, some (Error.Trace err))
  | (size, none) =>
  (index t 1).bind fun t1 =>
  match Atoi t1 with
  | (_, some err) => some (none, some (Error.Trace err))
  | (mTime, none) =>
  (index t 2).bind fun t2 =>
  match ParseUint t2 16 32 with
  | (_, some err) => some (none, some (Error.Trace err))
  | (rawMode, none) =>
  (index t 3).bind fun t3 =>
  match ParseInt t3 8 32 with
  | (_, some err) => some (none, some (Error.Trace err))
  | (mode, none) =>
  (index t 4).bind fun t4 =>
  match Atoi t4 with
  | (_, some err) => some (none, some (Error.Trace err))
  | (uid, none) =>
  (index t 5).bind fun t5 =>
  match Atoi t5 with
  | (_, some err) => some (none, some (Error.Trace err))
  | (gid, none) =>
    some (some
      { Name := Name
        Size := size
        Mtime := mTime
        IsSymbolicLink := decide (rawMode &&& IsSymbolicLink = IsSymbolicLink)
        IsDirectory := decide (rawMode &&& IsDirectory = IsDirectory)
        RemoteMode := mode
        RemoteUID := uid
        RemoteGID := gid }, none)

/-- The function `parseFileInformation(fileline, destPath)`. The result is
`none` for a run-time panic, otherwise the returned pair
`(*fileInformation, error)`. -/
def parseFileInformation (fileline destPath : GoString) : Option (Option fileInformation × Option Error) :=
  let t := Split fileline (bytes "///")
  if t.length ≠ 2 then some (none, some (wrongFileline fileline))
  else
    (index t 0).bind fun t0 =>
    if t0.length ≤ destPath.length then some (none, none)
    else
      (sliceFrom t0 destPath.length).bind fun Name =>
      (index t 1).bind fun t1 =>
      let t := Split t1 (bytes ",")
      if t.length ≠ 6 then some (none, some (wrongFileline fileline))
      else parseFields Name t

/-! ## Numerals, as the listing grammar words them -/

/-- A decimal digit, `'0'..'9'`. -/
def isDecDigit (c : UInt8) : Bool := decide (48 ≤ c.toNat ∧ c.toNat ≤ 57)

/-- An octal digit, `'0'..'7'`. -/
def isOctDigit (c : UInt8) : Bool := decide (48 ≤ c.toNat ∧ c.toNat ≤ 55)

/-- A hexadecimal digit, `'0'..'9'`, `'a'..'f'` or `'A'..'F'`. -/
def isHexDigit (c : UInt8) : Bool :=
  decide ((48 ≤ c.toNat ∧ c.toNat ≤ 57) ∨ (97 ≤ c.toNat ∧ c.toNat ≤ 102) ∨ (65 ≤ c.toNat ∧ c.toNat ≤ 70))

/-- The value of a digit byte: `'0'..'9'` are 0..9, upper-case letters count
from `'A'` = 10, lower-case letters from `'a'` = 10. -/
def digitValue (c : UInt8) : Nat :=
  if c.toNat ≤ 57 then c.toNat - 48 else if c.toNat ≤ 90 then c.toNat - 55 else c.toNat - 87

/-- The value of a digit string read in base `base`, most significant digit
first; no bound on the result. -/
def natValue (base : Nat) (s : GoString) : Nat := s.foldl (fun v c => v * base + digitValue c) 0

/-- One or more digits of the class `digit`. -/
def IsNumeral (digit : UInt8 → Bool) (s : GoString) : Prop := s ≠ [] ∧ ∀ c ∈ s, digit c = true

instance (digit : UInt8 → Bool) (s : GoString) : Decidable (IsNumeral digit s) := by
  unfold IsNumeral; infer_instance

/-- The text behind an optional leading sign `'+'` or `'-'`. -/
def digitsPart : GoString → GoString
  | [] => []
  | c :: r => if c = 43 ∨ c = 45 then r else c :: r

/-- The text starts with the sign `'-'`. -/
def isNegative (s : GoString) : Bool := decide (s.head? = some 45)

/-- An optional sign, then one or more digits of the class `digit`. -/
def IsSignedNumeral (digit : UInt8 → Bool) (s : GoString) : Prop := IsNumeral digit (digitsPart s)

instance (digit : UInt8 → Bool) (s : GoString) : Decidable (IsSignedNumeral digit s) := by
  unfold IsSignedNumeral; infer_instance

/-- The value of a signed numeral read in base `base`; no bound on the result. -/
def intValue (base : Nat) (s : GoString) : Int :=
  if isNegative s then - Int.ofNat (natValue base (digitsPart s)) else Int.ofNat (natValue base (digitsPart s))

/-! ## The parts of a listing line -/

/-- The delimiter between path and metadata, `"///"`. -/
def delimiter : GoString := bytes "///"

/-- The separator of the metadata fields, `","`. -/
def comma : GoString := bytes ","

/-- The text before the delimiter: the first part of the line split on `"///"`. -/
def pathPart (fileline : GoString) : GoString := (Split fileline delimiter).getD 0 []

/-- The text behind the delimiter: the second part of the line split on `"///"`. -/
def metaPart (fileline : GoString) : GoString := (Split fileline delimiter).getD 1 []

/-- The metadata fields: the metadata part split on `","`. -/
def fields (fileline : GoString) : List GoString := Split (metaPart fileline) comma

/-- The metadata field number `i`, counted from 0. -/
def field (fileline : GoString) (i : Nat) : GoString := (fields fileline).getD i []

/-- The POSIX file-type mask `S_IFMT`. -/
def typeMask : Nat := 0o170000

/-- The seven POSIX file types: FIFO, character device, directory, block
device, regular file, symbolic link, socket. -/
def posixTypes : List Nat := [0o010000, 0o020000, 0o040000, 0o060000, 0o100000, 0o120000, 0o140000]

/-- The six metadata fields are numerals of their bases: decimal with an
optional sign for size, mtime, uid and gid, hexadecimal without sign for the
raw mode, octal with an optional sign for the permissions. -/
def WellFormedFields (f0 f1 f2 f3 f4 f5 : GoString) : Prop :=
  IsSignedNumeral isDecDigit f0 ∧ IsSignedNumeral isDecDigit f1 ∧ IsNumeral isHexDigit f2 ∧
    IsSignedNumeral isOctDigit f3 ∧ IsSignedNumeral isDecDigit f4 ∧ IsSignedNumeral isDecDigit f5

instance (f0 f1 f2 f3 f4 f5 : GoString) : Decidable (WellFormedFields f0 f1 f2 f3 f4 f5) := by
  unfold WellFormedFields; infer_instance

/-- The values of the six metadata fields are within the ranges of their
conversions: 64-bit signed for the decimal fields, 32-bit unsigned for the raw
mode, 32-bit signed for the permissions. -/
def FieldsInRange (f0 f1 f2 f3 f4 f5 : GoString) : Prop :=
  (-(2 ^ 63 : Int) ≤ intValue 10 f0 ∧ intValue 10 f0 < 2 ^ 63) ∧
  (-(2 ^ 63 : Int) ≤ intValue 10 f1 ∧ intValue 10 f1 < 2 ^ 63) ∧
  natValue 16 f2 < 2 ^ 32 ∧
  (-(2 ^ 31 : Int) ≤ intValue 8 f3 ∧ intValue 8 f3 < 2 ^ 31) ∧
  (-(2 ^ 63 : Int) ≤ intValue 10 f4 ∧ intValue 10 f4 < 2 ^ 63) ∧
  (-(2 ^ 63 : Int) ≤ intValue 10 f5 ∧ intValue 10 f5 < 2 ^ 63)

instance (f0 f1 f2 f3 f4 f5 : GoString) : Decidable (FieldsInRange f0 f1 f2 f3 f4 f5) := by
  unfold FieldsInRange; infer_instance

/-! ## The line that `stat` writes -/

/-- The byte of the digit `d < 16`, letters in lower case as `stat` prints
them. -/
def digitByte (d : Nat) : UInt8 := if d < 10 then UInt8.ofNat (48 + d) else UInt8.ofNat (87 + d)

/-- The digits of `n` in base `base` in front of `acc`, most significant digit
first; the fuel bounds the number of digits. -/
def formatLoop (base : Nat) : Nat → Nat → GoString → GoString
  | 0, _, acc => acc
  | fuel + 1, n, acc =>
    if n < base then digitByte n :: acc
    else formatLoop base fuel (n / base) (digitByte (n % base) :: acc)

/-- The numeral of `n` in base `base`, without leading zeros. -/
def formatNat (base n : Nat) : GoString := formatLoop base (n + 1) n []

/-- The decimal numeral of an integer, as `%s`, `%Y`, `%u` and `%g` print it. -/
def dec (i : Int) : GoString := if i < 0 then 45 :: formatNat 10 i.natAbs else formatNat 10 i.natAbs

/-- The hexadecimal numeral of a raw mode, as `%f` prints it. -/
def hex (n : Nat) : GoString := formatNat 16 n

/-- The octal numeral of the permission bits, as `%a` prints it. -/
def oct (n : Nat) : GoString := formatNat 8 n

/-- The listing line of the format `%n///%s,%Y,%f,%a,%u,%g` for the path `p`. -/
def encodeLine (p : GoString) (size mtime : Int) (rawMode perm : Nat) (uid gid : Int) : GoString :=
  p ++ bytes "///" ++ dec size ++ bytes "," ++ dec mtime ++ bytes "," ++ hex rawMode ++ bytes "," ++
    oct perm ++ bytes "," ++ dec uid ++ bytes "," ++ dec gid

/-- The bytes a numeral of `formatNat` is made of: digits and lower-case
letters up to `'f'`. -/
def numeralByte (c : UInt8) : Prop := (48 ≤ c.toNat ∧ c.toNat ≤ 57) ∨ (97 ≤ c.toNat ∧ c.toNat ≤ 102)

/-- The metadata part of the encoded line. -/
def encodeMeta (size mtime : Int) (rawMode perm : Nat) (uid gid : Int) : GoString :=
  dec size ++ 44 :: (dec mtime ++ 44 :: (hex rawMode ++ 44 :: (oct perm ++ 44 :: (dec uid ++
    44 :: dec gid))))

/-! ## The command text, as the interface description writes it -/

/-- A piece of the command template: literal text or one of the three
placeholders `<root>`, `<END_SENTINEL>`, `<ERROR_SENTINEL>`. -/
inductive Piece
  | text (s : String)
  | root
  | endSentinel
  | errorSentinel

/-- The template
`mkdir -p '<root>' && find '<root>' -exec stat -c "%n///%s,%Y,%f,%a,%u,%g" {} + 2>/dev/null && echo -n "<END_SENTINEL>" || echo "<ERROR_SENTINEL>"`. -/
def commandTemplate : List Piece :=
  [Piece.text "mkdir -p '", Piece.root, Piece.text "' && find '", Piece.root,
   Piece.text "' -exec stat -c \"%n///%s,%Y,%f,%a,%u,%g\" \x7b\x7d + 2>/dev/null && echo -n \"",
   Piece.endSentinel, Piece.text "\" || echo \"", Piece.errorSentinel, Piece.text "\""]

/-- The template with every placeholder replaced verbatim. -/
def instantiate (endSentinel errorSentinel root : GoString) (template : List Piece) : GoString :=
  template.flatMap fun piece =>
    match piece with
    | Piece.text s => bytes s
    | Piece.root => root
    | Piece.endSentinel => endSentinel
    | Piece.errorSentinel => errorSentinel

/-- The command text of the interface description for a root path and the two
sentinels. -/
def commandText (endSentinel errorSentinel root : GoString) : GoString :=
  instantiate endSentinel errorSentinel root commandTemplate

/-! ## The stream of listing lines -/

/-- Modelled from the spec: the errors of the stream-level decoder, which is
not among the source files. An error of the line decoder (malformed line or
failed field conversion) is surfaced as it is; `remoteTraversal` is the error
for an observed error sentinel; `transportFailure` stands for a stream that
closed without either sentinel. -/
inductive StreamError
  | decode (cause : Error)
  | remoteTraversal
  | transportFailure
  deriving DecidableEq, Repr

/-- Modelled from the spec: the stream-level decoder, which is not among the
source files. The stream is the list of its lines in arrival order. Lines are
decoded in order by `parseFileInformation`; a record is yielded, a skipped line
yields nothing, an error of the line decoder ends the decoding at once; the end
sentinel ends it with success, the error sentinel with the remote-traversal
error; nothing behind a sentinel is read. The result is the records yielded
and the terminal signal (`none` for success); an outer `none` is a run-time
panic of the line decoder. -/
def decodeStream (EndAck ErrorAck destPath : GoString) :
    List GoString → Option (List fileInformation × Option StreamError)
  | [] => some ([], some StreamError.transportFailure)
  | line :: rest =>
    if line = EndAck then some ([], none)
    else if line = ErrorAck then some ([], some StreamError.remoteTraversal)
    else
      match parseFileInformation line destPath with
      | none => none
      | some (_, some err) => some ([], some (StreamError.decode err))
      | some (some info, none) =>
        (decodeStream EndAck ErrorAck destPath rest).map fun r => (info :: r.1, r.2)
      | some (none, none) => decodeStream EndAck ErrorAck destPath rest

/-- A valid listing line for a root: it is neither sentinel and the line
decoder returns without error (a record, or a skip). -/
def ValidLine (EndAck ErrorAck destPath line : GoString) : Prop :=
  line ≠ EndAck ∧ line ≠ ErrorAck ∧
    ∃ r : Option fileInformation, parseFileInformation line destPath = some (r, none)

/-- The records of a list of lines: those of the lines that decode to one. -/
def recordsOf (destPath : GoString) (lines : List GoString) : List fileInformation :=
  lines.filterMap fun line =>
    match parseFileInformation line destPath with
    | some (some info, _) => some info
    | _ => none

/-- The digits of base `base`, as `strconv.ParseUint` accepts them. -/
def accepts (base : Nat) (c : UInt8) : Prop := ∃ d, digitOfByte c = some d ∧ d < base

/-- The value the digit loop computes when nothing overflows. -/
def foldValue (base : Nat) (n : Nat) (s : GoString) : Nat := s.foldl (fun v c => v * base + digitValue c) n

/-- The number of bits a `bitSize` argument stands for: 0 means `int`. -/
def effectiveBits (bitSize : Nat) : Nat := if bitSize = 0 then intSize else bitSize

/-! ## Facts about `strconv` -/

theorem digitOfByte_value {c : UInt8} {d : Nat} (h : digitOfByte c = some d) : digitValue c = d := by
  unfold digitOfByte at h
  unfold digitValue
  split_ifs at h <;> simp at h <;> split_ifs <;> omega

theorem digitOfByte_lt {c : UInt8} {d : Nat} (h : digitOfByte c = some d) : d < 36 := by
  unfold digitOfByte at h
  split_ifs at h <;> simp at h <;> omega

theorem isDecDigit_iff (c : UInt8) : isDecDigit c = true ↔ ∃ d, digitOfByte c = some d ∧ d < 10 := by
  unfold isDecDigit digitOfByte
  constructor
  · intro h
    simp only [decide_eq_true_eq] at h
    exact ⟨c.toNat - 48, by rw [if_pos h], by omega⟩
  · rintro ⟨d, h, hd⟩
    split_ifs at h <;> simp at h <;> simp <;> omega

theorem isOctDigit_iff (c : UInt8) : isOctDigit c = true ↔ ∃ d, digitOfByte c = some d ∧ d < 8 := by
  unfold isOctDigit digitOfByte
  constructor
  · intro h
    simp only [decide_eq_true_eq] at h
    exact ⟨c.toNat - 48, by rw [if_pos (by omega)], by omega⟩
  · rintro ⟨d, h, hd⟩
    split_ifs at h <;> simp at h <;> simp <;> omega

theorem isHexDigit_iff (c : UInt8) : isHexDigit c = true ↔ ∃ d, digitOfByte c = some d ∧ d < 16 := by
  unfold isHexDigit digitOfByte
  constructor
  · intro h
    simp only [decide_eq_true_eq] at h
    split_ifs <;> simp <;> omega
  · rintro ⟨d, h, hd⟩
    split_ifs at h <;> simp at h <;> simp <;> omega

theorem foldValue_ge (base : Nat) (hb : 1 ≤ base) (s : GoString) : ∀ n, n ≤ foldValue base n s := by
  induction s with
  | nil => intro n; exact le_refl _
  | cons c cs ih =>
    intro n
    have h1 := ih (n * base + digitValue c)
    have h2 : n ≤ n * base := Nat.le_mul_of_pos_right n hb
    simp only [foldValue, List.foldl_cons] at h1 ⊢
    omega

theorem foldValue_cons (base n : Nat) (c : UInt8) (cs : GoString) :
    foldValue base n (c :: cs) = foldValue base (n * base + digitValue c) cs := rfl

theorem natValue_eq_foldValue (base : Nat) (s : GoString) : natValue base s = foldValue base 0 s := rfl

/-- A result of the digit loop that carries an error is a syntax error with
value 0 or a range error with value `maxVal`. -/
theorem parseUintLoop_error (base cutoff maxVal : Nat) (s0 : GoString) (s : GoString) :
    ∀ n u e, parseUintLoop base cutoff maxVal s0 n s = (u, some e) →
      (e = syntaxError "ParseUint" s0 ∧ u = 0) ∨ (e = rangeError "ParseUint" s0 ∧ u = maxVal) := by
  induction s with
  | nil => intro n u e h; simp [parseUintLoop] at h
  | cons c cs ih =>
    intro n u e h
    unfold parseUintLoop at h
    cases hd : digitOfByte c with
    | none =>
      simp only [hd, Prod.mk.injEq, Option.some.injEq] at h
      exact Or.inl ⟨h.2.symm, h.1.symm⟩
    | some d =>
      simp only [hd] at h
      split_ifs at h
      · simp only [Prod.mk.injEq, Option.some.injEq] at h
        exact Or.inl ⟨h.2.symm, h.1.symm⟩
      · simp only [Prod.mk.injEq, Option.some.injEq] at h
        exact Or.inr ⟨h.2.symm, h.1.symm⟩
      · simp only [Prod.mk.injEq, Option.some.injEq] at h
        exact Or.inr ⟨h.2.symm, h.1.symm⟩
      · exact ih _ u e h

/-- The digit loop succeeds exactly on digits of the base whose value, read on
from the accumulator, does not exceed `maxVal`; it then returns that value. -/
theorem parseUintLoop_ok (base maxVal : Nat) (hb : 2 ≤ base) (hm : maxVal < 2 ^ 64) (s0 : GoString)
    (s : GoString) : ∀ n v, n ≤ maxVal →
      (parseUintLoop base ((2 ^ 64 - 1) / base + 1) maxVal s0 n s = (v, none) ↔
        (∀ c ∈ s, accepts base c) ∧ foldValue base n s = v ∧ v ≤ maxVal) := by
  induction s with
  | nil =>
    intro n v hn
    simp only [parseUintLoop, Prod.mk.injEq, and_true, List.not_mem_nil, false_implies, implies_true,
      true_and, foldValue, List.foldl_nil]
    constructor
    · intro h; exact ⟨h, h ▸ hn⟩
    · intro h; exact h.1
  | cons c cs ih =>
    intro n v hn
    unfold parseUintLoop
    rw [foldValue_cons]
    cases hd : digitOfByte c with
    | none =>
      simp only [Prod.mk.injEq, false_iff, List.mem_cons, forall_eq_or_imp, reduceCtorEq, and_false,
        not_and]
      intro h
      obtain ⟨d, h1, _⟩ := h.1
      rw [hd] at h1; cases h1
    | some d =>
      have hv := digitOfByte_value hd
      have hacc : accepts base c ↔ d < base := by
        constructor
        · rintro ⟨d2, h1, h2⟩
          rw [hd] at h1; cases h1; exact h2
        · intro h; exact ⟨d, hd, h⟩
      simp only [List.mem_cons, forall_eq_or_imp, hacc, hv]
      by_cases h1 : d ≥ base
      · simp only [h1, if_true, Prod.mk.injEq, reduceCtorEq, and_false, false_iff]
        intro h; omega
      · simp only [h1, if_false]
        have hdb : d < base := by omega
        have hmono := foldValue_ge base (by omega) cs (n * base + d)
        by_cases h2 : n ≥ (2 ^ 64 - 1) / base + 1
        · simp only [h2, if_true, Prod.mk.injEq, reduceCtorEq, and_false, false_iff]
          intro h
          have h3 : (2 ^ 64 - 1) / base * base + base ≤ n * base := by
            have := Nat.mul_le_mul_right base h2
            rw [Nat.add_mul, Nat.one_mul] at this
            exact this
          have h4 := Nat.div_add_mod (2 ^ 64 - 1) base
          have h5 := Nat.mod_lt (2 ^ 64 - 1) (show base > 0 by omega)
          rw [Nat.mul_comm] at h4
          omega
        · simp only [h2, if_false]
          have h3 : n * base ≤ 2 ^ 64 - 1 := by
            have h4 : n ≤ (2 ^ 64 - 1) / base := by omega
            calc n * base ≤ (2 ^ 64 - 1) / base * base := Nat.mul_le_mul_right base h4
              _ ≤ 2 ^ 64 - 1 := Nat.div_mul_le_self _ _
          have h6 : n * base % 2 ^ 64 = n * base := Nat.mod_eq_of_lt (by omega)
          rw [h6]
          by_cases h7 : n * base + d < 2 ^ 64
          · have h8 : (n * base + d) % 2 ^ 64 = n * base + d := Nat.mod_eq_of_lt h7
            rw [h8]
            by_cases h9 : n * base + d > maxVal
            · have : n * base + d < n * base ∨ n * base + d > maxVal := Or.inr h9
              simp only [this, if_true, Prod.mk.injEq, reduceCtorEq, and_false, false_iff]
              intro h; omega
            · have : ¬ (n * base + d < n * base ∨ n * base + d > maxVal) := by omega
              simp only [this, if_false]
              rw [ih (n * base + d) v (by omega)]
              constructor
              · intro h; exact ⟨⟨hdb, h.1⟩, h.2⟩
              · intro h; exact ⟨h.1.2, h.2⟩
          · have h8 : (n * base + d) % 2 ^ 64 < n * base := by
              have h10 := digitOfByte_lt hd
              have h11 : (n * base + d) % 2 ^ 64 = n * base + d - 2 ^ 64 := by
                rw [Nat.mod_eq_sub_mod (by omega)]
                exact Nat.mod_eq_of_lt (by omega)
              omega
            have : (n * base + d) % 2 ^ 64 < n * base ∨ (n * base + d) % 2 ^ 64 > maxVal := Or.inl h8
            simp only [this, if_true, Prod.mk.injEq, reduceCtorEq, and_false, false_iff]
            intro h; omega

theorem maxVal_eq (b : Nat) (hb : b ≤ 64) : (2 ^ b + 2 ^ 64 - 1) % 2 ^ 64 = 2 ^ b - 1 := by
  have h1 : 1 ≤ 2 ^ b := Nat.one_le_two_pow
  have h2 : 2 ^ b ≤ 2 ^ 64 := Nat.pow_le_pow_right (by omega) hb
  have h3 : 2 ^ b + 2 ^ 64 - 1 = (2 ^ b - 1) + 2 ^ 64 := by omega
  rw [h3, Nat.add_mod_right]
  exact Nat.mod_eq_of_lt (by omega)

theorem effectiveBits_le {bitSize : Nat} (h : bitSize ≤ 64) : effectiveBits bitSize ≤ 64 := by
  unfold effectiveBits intSize
  split_ifs <;> omega

/-- `ParseUint` succeeds exactly on one or more digits of the base whose value
fits the bit size, and returns that value. -/
theorem ParseUint_ok (s : GoString) (base bitSize v : Nat) (hb : 2 ≤ base ∧ base ≤ 36)
    (hbs : bitSize ≤ 64) :
    ParseUint s base bitSize = (v, none) ↔
      s ≠ [] ∧ (∀ c ∈ s, accepts base c) ∧ natValue base s = v ∧ v < 2 ^ effectiveBits bitSize := by
  unfold ParseUint
  by_cases hs : s = []
  · simp [hs]
  · have h1 : ¬ ¬ (2 ≤ base ∧ base ≤ 36) := not_not.mpr hb
    have h2 : ¬ bitSize > 64 := by omega
    simp only [hs, if_false, h1, h2, not_false_eq_true, true_and, ne_eq]
    have hm := maxVal_eq (effectiveBits bitSize) (effectiveBits_le hbs)
    unfold effectiveBits at hm ⊢
    rw [hm]
    have h3 : 1 ≤ 2 ^ (if bitSize = 0 then intSize else bitSize) := Nat.one_le_two_pow
    have h4 : 2 ^ (if bitSize = 0 then intSize else bitSize) ≤ 2 ^ 64 :=
      Nat.pow_le_pow_right (by omega) (effectiveBits_le hbs)
    rw [parseUintLoop_ok base _ hb.1 (by omega) s s 0 v (Nat.zero_le _), natValue_eq_foldValue]
    constructor
    · rintro ⟨h5, h6, h7⟩; exact ⟨h5, h6, by omega⟩
    · rintro ⟨h5, h6, h7⟩; exact ⟨h5, h6, by omega⟩

/-- A range error of `ParseUint` comes with the largest value of the bit size. -/
theorem ParseUint_error (s : GoString) (base bitSize u : Nat) (e : NumError)
    (hb : 2 ≤ base ∧ base ≤ 36) (hbs : bitSize ≤ 64) (h : ParseUint s base bitSize = (u, some e)) :
    e.Func = "ParseUint" ∧ e.Num = s ∧
      (e.Err = ParseErr.ErrSyntax ∨ (e.Err = ParseErr.ErrRange ∧ u = 2 ^ effectiveBits bitSize - 1)) := by
  unfold ParseUint at h
  by_cases hs : s = []
  · simp only [hs, if_true, Prod.mk.injEq, Option.some.injEq] at h
    rw [← h.2, hs]
    exact ⟨rfl, rfl, Or.inl rfl⟩
  · have h1 : ¬ ¬ (2 ≤ base ∧ base ≤ 36) := not_not.mpr hb
    have h2 : ¬ bitSize > 64 := by omega
    simp only [hs, if_false, h1, h2] at h
    have hm := maxVal_eq (effectiveBits bitSize) (effectiveBits_le hbs)
    unfold effectiveBits at hm ⊢
    rw [hm] at h
    rcases parseUintLoop_error _ _ _ _ _ _ _ _ h with ⟨h3, h4⟩ | ⟨h3, h4⟩
    · rw [h3]; exact ⟨rfl, rfl, Or.inl rfl⟩
    · rw [h3]; exact ⟨rfl, rfl, Or.inr ⟨rfl, h4⟩⟩

theorem wrapInt64_of_range {x : Int} (h1 : -2 ^ 63 ≤ x) (h2 : x < 2 ^ 63) : wrapInt64 x = x := by
  unfold wrapInt64; omega

theorem wrapInt64_neg_ofNat {un : Nat} (h : un ≤ 2 ^ 63) :
    wrapInt64 (- wrapInt64 (un : Int)) = - (un : Int) := by
  unfold wrapInt64
  omega

theorem digitsPart_cons (c : UInt8) (rest : GoString) :
    (if c = 43 then rest else if c = 45 then rest else c :: rest) = digitsPart (c :: rest) := by
  unfold digitsPart
  by_cases h1 : c = 43
  · simp [h1]
  · by_cases h2 : c = 45
    · simp [h2]
    · simp [h1, h2]

theorem isNegative_cons (c : UInt8) (rest : GoString) : isNegative (c :: rest) = decide (c = 45) := by
  simp [isNegative]

theorem effectiveBits_def (b : Nat) : (if b = 0 then intSize else b) = effectiveBits b := rfl

theorem two_pow_pred {b : Nat} (h : 1 ≤ b) : 2 ^ b = 2 * 2 ^ (b - 1) := by
  obtain ⟨k, rfl⟩ : ∃ k, b = k + 1 := ⟨b - 1, by omega⟩
  simp [pow_succ, Nat.mul_comm]

/-- `ParseInt` succeeds exactly on an optional sign followed by one or more
digits of the base whose signed value fits the bit size, and returns it. -/
theorem ParseInt_ok (s : GoString) (base bitSize : Nat) (i : Int) (hb : 2 ≤ base ∧ base ≤ 36)
    (hbs : bitSize = 0 ∨ (2 ≤ bitSize ∧ bitSize ≤ 64)) :
    ParseInt s base bitSize = (i, none) ↔
      digitsPart s ≠ [] ∧ (∀ c ∈ digitsPart s, accepts base c) ∧ intValue base s = i ∧
        - ((2 ^ (effectiveBits bitSize - 1) : Nat) : Int) ≤ i ∧
        i < ((2 ^ (effectiveBits bitSize - 1) : Nat) : Int) := by
  cases s with
  | nil => simp [ParseInt, digitsPart]
  | cons c rest =>
    have hle : bitSize ≤ 64 := by omega
    have hb2 : 2 ≤ effectiveBits bitSize ∧ effectiveBits bitSize ≤ 64 := by
      unfold effectiveBits intSize; split_ifs <;> omega
    have hC := two_pow_pred (show 1 ≤ effectiveBits bitSize by omega)
    have hC63 : 2 ^ (effectiveBits bitSize - 1) ≤ 2 ^ 63 := Nat.pow_le_pow_right (by omega) (by omega)
    have hC2 : 2 ≤ 2 ^ (effectiveBits bitSize - 1) := by
      calc 2 = 2 ^ 1 := rfl
        _ ≤ 2 ^ (effectiveBits bitSize - 1) := Nat.pow_le_pow_right (by omega) (by omega)
    unfold ParseInt intValue
    simp only [digitsPart_cons, isNegative_cons, effectiveBits_def, Int.ofNat_eq_coe]
    rcases hres : ParseUint (digitsPart (c :: rest)) base bitSize with ⟨un, _ | e⟩
    · have hu := (ParseUint_ok _ base bitSize un hb hle).mp hres
      obtain ⟨hu1, hu2, hu3, hu4⟩ := hu
      simp only [hu3]
      by_cases hn : c = 45
      · subst hn
        simp only [decide_True, Bool.not_true, Bool.false_eq_true, false_and, if_false, true_and,
          if_true, Int.ofNat_eq_coe]
        by_cases h1 : un > 2 ^ (effectiveBits bitSize - 1)
        · simp only [h1, if_true, Prod.mk.injEq, reduceCtorEq, and_false, false_iff]
          intro h; omega
        · simp only [h1, if_false, Prod.mk.injEq, and_true]
          rw [wrapInt64_neg_ofNat (by omega)]
          constructor
          · intro h; exact ⟨hu1, hu2, h, by omega, by omega⟩
          · intro h; exact h.2.2.1
      · simp only [hn, decide_False, Bool.not_false, true_and, Bool.false_eq_true, false_and, if_false,
          Int.ofNat_eq_coe]
        by_cases h1 : un ≥ 2 ^ (effectiveBits bitSize - 1)
        · simp only [h1, if_true, Prod.mk.injEq, reduceCtorEq, and_false, false_iff]
          intro h; omega
        · simp only [h1, if_false, Prod.mk.injEq, and_true]
          rw [wrapInt64_of_range (by omega) (by omega)]
          constructor
          · intro h; exact ⟨hu1, hu2, h, by omega, by omega⟩
          · intro h; exact h.2.2.1
    · have he := ParseUint_error _ base bitSize un e hb hle hres
      have hno : ¬ (digitsPart (c :: rest) ≠ [] ∧ (∀ x ∈ digitsPart (c :: rest), accepts base x) ∧
          natValue base (digitsPart (c :: rest)) < 2 ^ effectiveBits bitSize) := by
        intro h
        have := (ParseUint_ok _ base bitSize _ hb hle).mpr ⟨h.1, h.2.1, rfl, h.2.2⟩
        rw [hres] at this
        simp at this
      rcases he.2.2 with h1 | ⟨h1, h2⟩
      · simp only [h1, ne_eq, reduceCtorEq, not_false_eq_true, if_true, Prod.mk.injEq, and_false,
          false_iff]
        intro h
        apply hno
        refine ⟨h.1, h.2.1, ?_⟩
        have h3 := h.2.2.1
        have h4 := h.2.2.2
        split_ifs at h3 <;> omega
      · simp only [h1, ne_eq, not_true_eq_false, if_false]
        by_cases hn : c = 45
        · have h3 : un > 2 ^ (effectiveBits bitSize - 1) := by omega
          subst hn
          simp only [decide_True, Bool.not_true, Bool.false_eq_true, false_and, if_false, true_and,
            h3, if_true, Prod.mk.injEq, reduceCtorEq, and_false, false_iff]
          intro h
          apply hno
          refine ⟨h.1, h.2.1, ?_⟩
          have h3 := h.2.2.1
          have h4 := h.2.2.2
          simp only [if_true] at h3
          omega
        · have h3 : un ≥ 2 ^ (effectiveBits bitSize - 1) := by omega
          simp only [hn, decide_False, Bool.not_false, true_and, h3, if_true, Prod.mk.injEq,
            reduceCtorEq, and_false, false_iff]
          intro h
          apply hno
          refine ⟨h.1, h.2.1, ?_⟩
          have h3 := h.2.2.1
          have h4 := h.2.2.2
          simp only [Bool.false_eq_true, if_false] at h3
          omega

theorem accepts_ten_iff (c : UInt8) : accepts 10 c ↔ 48 ≤ c.toNat ∧ c.toNat ≤ 57 := by
  unfold accepts
  rw [← isDecDigit_iff]
  simp [isDecDigit]

theorem foldValue_lt (s : GoString) : ∀ n k, n < 10 ^ k → (∀ x ∈ s, accepts 10 x) →
    foldValue 10 n s < 10 ^ (k + s.length) := by
  induction s with
  | nil => intro n k h _; simpa [foldValue] using h
  | cons c cs ih =>
    intro n k h hd
    rw [foldValue_cons]
    have hc := (accepts_ten_iff c).mp (hd c (List.mem_cons_self _ _))
    have hv : digitValue c = c.toNat - 48 := by
      unfold digitValue; rw [if_pos hc.2]
    have h2 : n * 10 + digitValue c < 10 ^ (k + 1) := by
      rw [pow_succ]; omega
    have := ih (n * 10 + digitValue c) (k + 1) h2 (fun x hx => hd x (List.mem_cons_of_mem _ hx))
    rw [List.length_cons]
    rw [show k + (cs.length + 1) = k + 1 + cs.length by omega]
    exact this

/-- The fast path of `Atoi` reads at most 18 digits, so its accumulator never
leaves the `int` range; it succeeds exactly on decimal digits. -/
theorem atoiLoop_ok (s0 : GoString) (s : GoString) : ∀ (n k : Nat) (v : Int), n < 10 ^ k →
    k + s.length ≤ 18 →
    (atoiLoop s0 (n : Int) s = (v, none) ↔ (∀ x ∈ s, accepts 10 x) ∧ v = (foldValue 10 n s : Nat)) := by
  induction s with
  | nil =>
    intro n k v _ _
    simp only [atoiLoop, Prod.mk.injEq, and_true, List.not_mem_nil, false_implies, implies_true,
      true_and, foldValue, List.foldl_nil]
    exact eq_comm
  | cons c cs ih =>
    intro n k v hn hk
    rw [List.length_cons] at hk
    unfold atoiLoop
    rw [foldValue_cons]
    simp only [List.mem_cons, forall_eq_or_imp, accepts_ten_iff c]
    have hlt := UInt8.toNat_lt c
    by_cases hc : 48 ≤ c.toNat ∧ c.toNat ≤ 57
    · have h1 : (c.toNat + 256 - 48) % 256 = c.toNat - 48 := by omega
      have hv : digitValue c = c.toNat - 48 := by
        unfold digitValue; rw [if_pos hc.2]
      have h2 : ¬ (c.toNat - 48 > 9) := by omega
      have h3 : n * 10 + (c.toNat - 48) < 10 ^ (k + 1) := by
        rw [pow_succ]; omega
      have h4 : 10 ^ (k + 1) ≤ 10 ^ 18 := Nat.pow_le_pow_right (by omega) (by omega)
      have h5 : wrapInt64 ((n : Int) * 10 + Int.ofNat (c.toNat - 48)) = ((n * 10 + (c.toNat - 48) : Nat) : Int) := by
        rw [wrapInt64_of_range]
        · simp only [Int.ofNat_eq_coe]; push_cast; rfl
        · simp only [Int.ofNat_eq_coe]; omega
        · simp only [Int.ofNat_eq_coe]
          have : (10 : Nat) ^ 18 < 2 ^ 63 := by norm_num
          omega
      simp only [h1, h2, if_false, h5, hv, hc, and_self, true_and]
      exact ih _ (k + 1) v h3 (by omega)
    · have h1 : (c.toNat + 256 - 48) % 256 > 9 := by omega
      simp only [h1, if_true, Prod.mk.injEq, reduceCtorEq, and_false, false_iff, hc, false_and,
        not_false_eq_true]

theorem atoiLoop_zero (s0 s : GoString) (v : Int) (h : s.length ≤ 18) :
    atoiLoop s0 0 s = (v, none) ↔ (∀ x ∈ s, accepts 10 x) ∧ v = (natValue 10 s : Nat) := by
  have := atoiLoop_ok s0 s 0 0 v (by norm_num) (by omega)
  simpa [natValue_eq_foldValue] using this

theorem natValue_lt (s : GoString) (h : ∀ x ∈ s, accepts 10 x) (hl : s.length ≤ 18) :
    natValue 10 s < 10 ^ 18 := by
  have h1 := foldValue_lt s 0 0 (by norm_num) h
  have h2 : 10 ^ (0 + s.length) ≤ 10 ^ 18 := Nat.pow_le_pow_right (by omega) (by omega)
  rw [natValue_eq_foldValue]
  omega

/-- `Atoi` succeeds exactly on an optional sign followed by one or more decimal
digits whose signed value fits a 64-bit `int`, and returns that value. -/
theorem Atoi_ok (s : GoString) (i : Int) :
    Atoi s = (i, none) ↔
      digitsPart s ≠ [] ∧ (∀ x ∈ digitsPart s, accepts 10 x) ∧ intValue 10 s = i ∧
        - (2 ^ 63 : Int) ≤ i ∧ i < 2 ^ 63 := by
  have hslow : ∀ s : GoString,
      ((match ParseInt s 10 0 with
        | (i64, some nerr) => (i64, some (⟨"Atoi", nerr.Num, nerr.Err⟩ : NumError))
        | (i64, none) => (i64, none)) = (i, none)) ↔
      digitsPart s ≠ [] ∧ (∀ x ∈ digitsPart s, accepts 10 x) ∧ intValue 10 s = i ∧
        - (2 ^ 63 : Int) ≤ i ∧ i < 2 ^ 63 := by
    intro s
    have h := ParseInt_ok s 10 0 i (by omega) (Or.inl rfl)
    have he : effectiveBits 0 - 1 = 63 := rfl
    rw [he] at h
    have hc : ((2 ^ 63 : Nat) : Int) = 2 ^ 63 := by norm_num
    rw [hc] at h
    rw [← h]
    rcases hres : ParseInt s 10 0 with ⟨u, _ | e⟩ <;> simp
  cases s with
  | nil =>
    unfold Atoi
    exact hslow []
  | cons c rest =>
    unfold Atoi
    simp only [List.length_cons]
    by_cases hlen : rest.length + 1 < 19
    · have hfast : (intSize = 32 ∧ (0 < rest.length + 1 ∧ rest.length + 1 < 10)) ∨
          (intSize = 64 ∧ (0 < rest.length + 1 ∧ rest.length + 1 < 19)) :=
        Or.inr ⟨rfl, by omega, hlen⟩
      simp only [hfast, if_true]
      have h1018 : (10 : Nat) ^ 18 < 2 ^ 63 := by norm_num
      by_cases hsign : c = 45 ∨ c = 43
      · have hdp : digitsPart (c :: rest) = rest := by
          unfold digitsPart
          rcases hsign with h | h <;> simp [h]
        simp only [hsign, decide_True, true_and, if_true, hdp]
        by_cases hr : rest.length < 1
        · have : rest = [] := List.length_eq_zero.mp (by omega)
          simp [hr, this]
        · simp only [hr, if_false]
          have hne : rest ≠ [] := by
            intro h; rw [h] at hr; simp at hr
          rcases hres : atoiLoop (c :: rest) 0 rest with ⟨n, _ | e⟩
          · have h2 := (atoiLoop_zero (c :: rest) rest n (by omega)).mp hres
            have h3 := natValue_lt rest h2.1 (by omega)
            simp only [Prod.mk.injEq, and_true, intValue, isNegative_cons, hdp, Int.ofNat_eq_coe]
            by_cases hneg : c = 45
            · simp only [hneg, if_true, decide_True]
              rw [h2.2, wrapInt64_of_range (by omega) (by omega)]
              constructor
              · intro h; exact ⟨hne, h2.1, h, by omega, by omega⟩
              · intro h; exact h.2.2.1
            · simp only [hneg, if_false, decide_False, Bool.false_eq_true]
              rw [h2.2]
              constructor
              · intro h; exact ⟨hne, h2.1, h, by omega, by omega⟩
              · intro h; exact h.2.2.1
          · simp only [Prod.mk.injEq, reduceCtorEq, and_false, false_iff]
            intro h
            have := (atoiLoop_zero (c :: rest) rest _ (by omega)).mpr ⟨h.2.1, rfl⟩
            rw [hres] at this
            simp at this
      · have hdp : digitsPart (c :: rest) = c :: rest := by
          unfold digitsPart
          have : ¬ (c = 43 ∨ c = 45) := by tauto
          simp [this]
        have hneg : ¬ c = 45 := by tauto
        simp only [hsign, decide_False, Bool.false_eq_true, false_and, if_false, hdp]
        rcases hres : atoiLoop (c :: rest) 0 (c :: rest) with ⟨n, _ | e⟩
        · have h2 := (atoiLoop_zero (c :: rest) (c :: rest) n (by simp; omega)).mp hres
          have h3 := natValue_lt (c :: rest) h2.1 (by simp; omega)
          simp only [Prod.mk.injEq, and_true, intValue, isNegative_cons, hdp, Int.ofNat_eq_coe,
            hneg, if_false, decide_False, Bool.false_eq_true]
          rw [h2.2]
          constructor
          · intro h; exact ⟨by simp, h2.1, h, by omega, by omega⟩
          · intro h; exact h.2.2.1
        · simp only [Prod.mk.injEq, reduceCtorEq, and_false, false_iff]
          intro h
          have := (atoiLoop_zero (c :: rest) (c :: rest) _ (by simp; omega)).mpr ⟨h.2.1, rfl⟩
          rw [hres] at this
          simp at this
    · have hfast : ¬ ((intSize = 32 ∧ (0 < rest.length + 1 ∧ rest.length + 1 < 10)) ∨
          (intSize = 64 ∧ (0 < rest.length + 1 ∧ rest.length + 1 < 19))) := by
        unfold intSize; omega
      simp only [hfast, if_false]
      exact hslow (c :: rest)

/-! ## Facts about `parseFileInformation` -/

theorem length_eq_six {α : Type} {l : List α} (h : l.length = 6) :
    ∃ a b c d e f, l = [a, b, c, d, e, f] := by
  match l, h with
  | [a, b, c, d, e, f], _ => exact ⟨a, b, c, d, e, f, rfl⟩

/-- On six fields `parseFields` returns a record exactly when the six
conversions succeed; the record holds their results. -/
theorem parseFields_record (Name f0 f1 f2 f3 f4 f5 : GoString) (info : fileInformation)
    (err : Option Error) :
    parseFields Name [f0, f1, f2, f3, f4, f5] = some (some info, err) ↔
      ∃ (size mTime : Int) (rawMode : Nat) (mode uid gid : Int),
        Atoi f0 = (size, none) ∧ Atoi f1 = (mTime, none) ∧ ParseUint f2 16 32 = (rawMode, none) ∧
        ParseInt f3 8 32 = (mode, none) ∧ Atoi f4 = (uid, none) ∧ Atoi f5 = (gid, none) ∧
        info = { Name := Name, Size := size, Mtime := mTime,
                 IsSymbolicLink := decide (rawMode &&& IsSymbolicLink = IsSymbolicLink),
                 IsDirectory := decide (rawMode &&& IsDirectory = IsDirectory),
                 RemoteMode := mode, RemoteUID := uid, RemoteGID := gid } ∧
        err = none := by
  unfold parseFields index
  simp only [List.getElem?_cons_zero, List.getElem?_cons_succ, Option.some_bind]
  rcases h0 : Atoi f0 with ⟨size, _ | e0⟩
  swap
  · simp
  rcases h1 : Atoi f1 with ⟨mTime, _ | e1⟩
  swap
  · simp
  rcases h2 : ParseUint f2 16 32 with ⟨rawMode, _ | e2⟩
  swap
  · simp
  rcases h3 : ParseInt f3 8 32 with ⟨mode, _ | e3⟩
  swap
  · simp
  rcases h4 : Atoi f4 with ⟨uid, _ | e4⟩
  swap
  · simp
  rcases h5 : Atoi f5 with ⟨gid, _ | e5⟩
  swap
  · simp
  simp only [Option.some.injEq, Prod.mk.injEq, and_true]
  constructor
  · rintro ⟨h, h'⟩
    exact ⟨size, mTime, rawMode, mode, uid, gid, rfl, rfl, rfl, rfl, rfl, rfl, h.symm, h'.symm⟩
  · rintro ⟨_, _, _, _, _, _, rfl, rfl, rfl, rfl, rfl, rfl, h, h'⟩
    exact ⟨h.symm, h'.symm⟩

/-- A result of `parseFields` on six fields without a record is the traced
error of one of the six conversions. -/
theorem parseFields_no_record (Name f0 f1 f2 f3 f4 f5 : GoString) (err : Option Error)
    (h : parseFields Name [f0, f1, f2, f3, f4, f5] = some (none, err)) :
    ∃ e : NumError, err = some (Error.Trace e) ∧
      ((∃ v, Atoi f0 = (v, some e)) ∨ (∃ v, Atoi f1 = (v, some e)) ∨
       (∃ v, ParseUint f2 16 32 = (v, some e)) ∨ (∃ v, ParseInt f3 8 32 = (v, some e)) ∨
       (∃ v, Atoi f4 = (v, some e)) ∨ (∃ v, Atoi f5 = (v, some e))) := by
  unfold parseFields index at h
  simp only [List.getElem?_cons_zero, List.getElem?_cons_succ, Option.some_bind] at h
  rcases h0 : Atoi f0 with ⟨size, _ | e0⟩
  swap
  · rw [h0] at h; simp only [Option.some.injEq, Prod.mk.injEq, true_and] at h
    exact ⟨e0, h.symm, Or.inl ⟨_, rfl⟩⟩
  rcases h1 : Atoi f1 with ⟨mTime, _ | e1⟩
  swap
  · rw [h0, h1] at h; simp only [Option.some.injEq, Prod.mk.injEq, true_and] at h
    exact ⟨e1, h.symm, Or.inr (Or.inl ⟨_, rfl⟩)⟩
  rcases h2 : ParseUint f2 16 32 with ⟨rawMode, _ | e2⟩
  swap
  · rw [h0, h1, h2] at h; simp only [Option.some.injEq, Prod.mk.injEq, true_and] at h
    exact ⟨e2, h.symm, Or.inr (Or.inr (Or.inl ⟨_, rfl⟩))⟩
  rcases h3 : ParseInt f3 8 32 with ⟨mode, _ | e3⟩
  swap
  · rw [h0, h1, h2, h3] at h; simp only [Option.some.injEq, Prod.mk.injEq, true_and] at h
    exact ⟨e3, h.symm, Or.inr (Or.inr (Or.inr (Or.inl ⟨_, rfl⟩)))⟩
  rcases h4 : Atoi f4 with ⟨uid, _ | e4⟩
  swap
  · rw [h0, h1, h2, h3, h4] at h; simp only [Option.some.injEq, Prod.mk.injEq, true_and] at h
    exact ⟨e4, h.symm, Or.inr (Or.inr (Or.inr (Or.inr (Or.inl ⟨_, rfl⟩))))⟩
  rcases h5 : Atoi f5 with ⟨gid, _ | e5⟩
  swap
  · rw [h0, h1, h2, h3, h4, h5] at h; simp only [Option.some.injEq, Prod.mk.injEq, true_and] at h
    exact ⟨e5, h.symm, Or.inr (Or.inr (Or.inr (Or.inr (Or.inr ⟨_, rfl⟩))))⟩
  rw [h0, h1, h2, h3, h4, h5] at h
  simp at h

/-- On six fields `parseFields` does not panic and never returns a record
together with an error. -/
theorem parseFields_total (Name f0 f1 f2 f3 f4 f5 : GoString) :
    (∃ info, parseFields Name [f0, f1, f2, f3, f4, f5] = some (some info, none)) ∨
    (∃ e, parseFields Name [f0, f1, f2, f3, f4, f5] = some (none, some (Error.Trace e))) := by
  unfold parseFields index
  simp only [List.getElem?_cons_zero, List.getElem?_cons_succ, Option.some_bind]
  rcases h0 : Atoi f0 with ⟨size, _ | e0⟩
  swap
  · exact Or.inr ⟨e0, rfl⟩
  rcases h1 : Atoi f1 with ⟨mTime, _ | e1⟩
  swap
  · exact Or.inr ⟨e1, rfl⟩
  rcases h2 : ParseUint f2 16 32 with ⟨rawMode, _ | e2⟩
  swap
  · exact Or.inr ⟨e2, rfl⟩
  rcases h3 : ParseInt f3 8 32 with ⟨mode, _ | e3⟩
  swap
  · exact Or.inr ⟨e3, rfl⟩
  rcases h4 : Atoi f4 with ⟨uid, _ | e4⟩
  swap
  · exact Or.inr ⟨e4, rfl⟩
  rcases h5 : Atoi f5 with ⟨gid, _ | e5⟩
  swap
  · exact Or.inr ⟨e5, rfl⟩
  exact Or.inl ⟨_, rfl⟩

/-- The decoder on a line with two parts, a path part longer than the root and
six fields: it is `parseFields` on the sliced name and the fields. -/
theorem parse_of_split (fileline destPath t0 t1 f0 f1 f2 f3 f4 f5 : GoString)
    (h1 : Split fileline (bytes "///") = [t0, t1]) (h2 : destPath.length < t0.length)
    (h3 : Split t1 (bytes ",") = [f0, f1, f2, f3, f4, f5]) :
    parseFileInformation fileline destPath =
      parseFields (t0.drop destPath.length) [f0, f1, f2, f3, f4, f5] := by
  unfold parseFileInformation
  have h4 : ¬ t0.length ≤ destPath.length := by omega
  have h5 : destPath.length ≤ t0.length := by omega
  simp [h1, index, sliceFrom, h3, h4, h5]

/-- The two early exits and the field-count exit of the decoder, and what is
left when none is taken. -/
theorem parse_cases (fileline destPath : GoString) :
    ((Split fileline (bytes "///")).length ≠ 2 ∧
      parseFileInformation fileline destPath = some (none, some (wrongFileline fileline))) ∨
    (∃ t0 t1, Split fileline (bytes "///") = [t0, t1] ∧ t0.length ≤ destPath.length ∧
      parseFileInformation fileline destPath = some (none, none)) ∨
    (∃ t0 t1, Split fileline (bytes "///") = [t0, t1] ∧ destPath.length < t0.length ∧
      (Split t1 (bytes ",")).length ≠ 6 ∧
      parseFileInformation fileline destPath = some (none, some (wrongFileline fileline))) ∨
    (∃ t0 t1 f0 f1 f2 f3 f4 f5, Split fileline (bytes "///") = [t0, t1] ∧
      destPath.length < t0.length ∧ Split t1 (bytes ",") = [f0, f1, f2, f3, f4, f5] ∧
      parseFileInformation fileline destPath =
        parseFields (t0.drop destPath.length) [f0, f1, f2, f3, f4, f5]) := by
  by_cases h : (Split fileline (bytes "///")).length = 2
  · obtain ⟨t0, t1, ht⟩ := List.length_eq_two.mp h
    by_cases h2 : t0.length ≤ destPath.length
    · refine Or.inr (Or.inl ⟨t0, t1, ht, h2, ?_⟩)
      unfold parseFileInformation
      simp [ht, index, h2]
    · by_cases h3 : (Split t1 (bytes ",")).length = 6
      · obtain ⟨f0, f1, f2, f3, f4, f5, hf⟩ := length_eq_six h3
        exact Or.inr (Or.inr (Or.inr ⟨t0, t1, f0, f1, f2, f3, f4, f5, ht, by omega, hf,
          parse_of_split _ _ _ _ _ _ _ _ _ _ ht (by omega) hf⟩))
      · refine Or.inr (Or.inr (Or.inl ⟨t0, t1, ht, by omega, h3, ?_⟩))
        unfold parseFileInformation
        have h5 : destPath.length ≤ t0.length := by omega
        simp [ht, index, sliceFrom, h2, h3, h5]
  · refine Or.inl ⟨h, ?_⟩
    unfold parseFileInformation
    simp [h]

theorem isSignedNumeral_dec_iff (s : GoString) :
    IsSignedNumeral isDecDigit s ↔ digitsPart s ≠ [] ∧ ∀ x ∈ digitsPart s, accepts 10 x := by
  unfold IsSignedNumeral IsNumeral accepts
  simp only [isDecDigit_iff]

theorem isSignedNumeral_oct_iff (s : GoString) :
    IsSignedNumeral isOctDigit s ↔ digitsPart s ≠ [] ∧ ∀ x ∈ digitsPart s, accepts 8 x := by
  unfold IsSignedNumeral IsNumeral accepts
  simp only [isOctDigit_iff]

theorem isNumeral_hex_iff (s : GoString) :
    IsNumeral isHexDigit s ↔ s ≠ [] ∧ ∀ x ∈ s, accepts 16 x := by
  unfold IsNumeral accepts
  simp only [isHexDigit_iff]

/-- `Atoi` returns a value exactly on a signed decimal numeral within the
64-bit range: the value of the numeral. -/
theorem Atoi_numeral (s : GoString) (i : Int) :
    Atoi s = (i, none) ↔
      IsSignedNumeral isDecDigit s ∧ intValue 10 s = i ∧ - (2 ^ 63 : Int) ≤ i ∧ i < 2 ^ 63 := by
  rw [Atoi_ok, isSignedNumeral_dec_iff, and_assoc]

/-- `ParseUint(s, 16, 32)` returns a value exactly on an unsigned hexadecimal
numeral below `2 ^ 32`: the value of the numeral. -/
theorem ParseUint_hex (s : GoString) (v : Nat) :
    ParseUint s 16 32 = (v, none) ↔ IsNumeral isHexDigit s ∧ natValue 16 s = v ∧ v < 2 ^ 32 := by
  rw [ParseUint_ok s 16 32 v (by omega) (by omega), isNumeral_hex_iff, and_assoc]
  rfl

/-- `ParseInt(s, 8, 32)` returns a value exactly on a signed octal numeral
within the 32-bit range: the value of the numeral. -/
theorem ParseInt_oct (s : GoString) (i : Int) :
    ParseInt s 8 32 = (i, none) ↔
      IsSignedNumeral isOctDigit s ∧ intValue 8 s = i ∧ - (2 ^ 31 : Int) ≤ i ∧ i < 2 ^ 31 := by
  rw [ParseInt_ok s 8 32 i (by omega) (Or.inr (by omega)), isSignedNumeral_oct_iff, and_assoc]
  have he : effectiveBits 32 - 1 = 31 := rfl
  have hc : ((2 ^ 31 : Nat) : Int) = 2 ^ 31 := by norm_num
  rw [he, hc]

/-- The six conversions succeed exactly on well-formed fields within range, and
the record holds the values of the numerals. -/
theorem parseFields_numerals (Name f0 f1 f2 f3 f4 f5 : GoString) (info : fileInformation)
    (err : Option Error) :
    parseFields Name [f0, f1, f2, f3, f4, f5] = some (some info, err) ↔
      WellFormedFields f0 f1 f2 f3 f4 f5 ∧ FieldsInRange f0 f1 f2 f3 f4 f5 ∧
        info = { Name := Name, Size := intValue 10 f0, Mtime := intValue 10 f1,
                 IsSymbolicLink := decide (natValue 16 f2 &&& IsSymbolicLink = IsSymbolicLink),
                 IsDirectory := decide (natValue 16 f2 &&& IsDirectory = IsDirectory),
                 RemoteMode := intValue 8 f3, RemoteUID := intValue 10 f4,
                 RemoteGID := intValue 10 f5 } ∧
        err = none := by
  rw [parseFields_record]
  simp only [Atoi_numeral, ParseUint_hex, ParseInt_oct]
  unfold WellFormedFields FieldsInRange
  constructor
  · rintro ⟨size, mTime, rawMode, mode, uid, gid, ⟨a0, rfl, b0, c0⟩, ⟨a1, rfl, b1, c1⟩, ⟨a2, rfl, b2⟩,
      ⟨a3, rfl, b3, c3⟩, ⟨a4, rfl, b4, c4⟩, ⟨a5, rfl, b5, c5⟩, hinfo, herr⟩
    exact ⟨⟨a0, a1, a2, a3, a4, a5⟩, ⟨⟨b0, c0⟩, ⟨b1, c1⟩, b2, ⟨b3, c3⟩, ⟨b4, c4⟩, ⟨b5, c5⟩⟩, hinfo, herr⟩
  · rintro ⟨⟨a0, a1, a2, a3, a4, a5⟩, ⟨⟨b0, c0⟩, ⟨b1, c1⟩, b2, ⟨b3, c3⟩, ⟨b4, c4⟩, ⟨b5, c5⟩⟩, hinfo, herr⟩
    exact ⟨_, _, _, _, _, _, ⟨a0, rfl, b0, c0⟩, ⟨a1, rfl, b1, c1⟩, ⟨a2, rfl, b2⟩,
      ⟨a3, rfl, b3, c3⟩, ⟨a4, rfl, b4, c4⟩, ⟨a5, rfl, b5, c5⟩, hinfo, herr⟩

/-- What a returned record says about the line: two parts, a path part longer
than the root, six well-formed fields within range, and the record made of
the sliced path and the values of the fields. -/
theorem parse_record (fileline destPath : GoString) (info : fileInformation) (err : Option Error)
    (h : parseFileInformation fileline destPath = some (some info, err)) :
    Split fileline delimiter = [pathPart fileline, metaPart fileline] ∧
    destPath.length < (pathPart fileline).length ∧
    fields fileline = [field fileline 0, field fileline 1, field fileline 2, field fileline 3,
      field fileline 4, field fileline 5] ∧
    WellFormedFields (field fileline 0) (field fileline 1) (field fileline 2) (field fileline 3)
      (field fileline 4) (field fileline 5) ∧
    FieldsInRange (field fileline 0) (field fileline 1) (field fileline 2) (field fileline 3)
      (field fileline 4) (field fileline 5) ∧
    info = { Name := (pathPart fileline).drop destPath.length,
             Size := intValue 10 (field fileline 0), Mtime := intValue 10 (field fileline 1),
             IsSymbolicLink :=
               decide (natValue 16 (field fileline 2) &&& IsSymbolicLink = IsSymbolicLink),
             IsDirectory := decide (natValue 16 (field fileline 2) &&& IsDirectory = IsDirectory),
             RemoteMode := intValue 8 (field fileline 3), RemoteUID := intValue 10 (field fileline 4),
             RemoteGID := intValue 10 (field fileline 5) } ∧
    err = none := by
  rcases parse_cases fileline destPath with ⟨_, h1⟩ | ⟨_, _, _, _, h1⟩ | ⟨_, _, _, _, _, h1⟩ |
    ⟨t0, t1, f0, f1, f2, f3, f4, f5, ht, hlen, hf, h1⟩
  · rw [h1] at h; simp at h
  · rw [h1] at h; simp at h
  · rw [h1] at h; simp at h
  · rw [h1] at h
    have ht' : Split fileline delimiter = [t0, t1] := ht
    have hp : pathPart fileline = t0 := by simp [pathPart, ht']
    have hm : metaPart fileline = t1 := by simp [metaPart, ht']
    have hf' : fields fileline = [f0, f1, f2, f3, f4, f5] := by
      unfold fields; rw [hm]; exact hf
    have e0 : field fileline 0 = f0 := by simp [field, hf']
    have e1 : field fileline 1 = f1 := by simp [field, hf']
    have e2 : field fileline 2 = f2 := by simp [field, hf']
    have e3 : field fileline 3 = f3 := by simp [field, hf']
    have e4 : field fileline 4 = f4 := by simp [field, hf']
    have e5 : field fileline 5 = f5 := by simp [field, hf']
    rw [hp, hm, e0, e1, e2, e3, e4, e5]
    obtain ⟨hw, hr, hinfo, herr⟩ := (parseFields_numerals _ _ _ _ _ _ _ _ _).mp h
    exact ⟨ht', hlen, hf', hw, hr, hinfo, herr⟩

/-- A line with two parts, a path part longer than the root and six
well-formed fields within range decodes to a record and no error. -/
theorem parse_of_fields (fileline destPath t0 t1 f0 f1 f2 f3 f4 f5 : GoString)
    (h1 : Split fileline delimiter = [t0, t1]) (h2 : destPath.length < t0.length)
    (h3 : Split t1 comma = [f0, f1, f2, f3, f4, f5])
    (hw : WellFormedFields f0 f1 f2 f3 f4 f5) (hr : FieldsInRange f0 f1 f2 f3 f4 f5) :
    parseFileInformation fileline destPath =
      some (some { Name := t0.drop destPath.length, Size := intValue 10 f0, Mtime := intValue 10 f1,
                   IsSymbolicLink := decide (natValue 16 f2 &&& IsSymbolicLink = IsSymbolicLink),
                   IsDirectory := decide (natValue 16 f2 &&& IsDirectory = IsDirectory),
                   RemoteMode := intValue 8 f3, RemoteUID := intValue 10 f4,
                   RemoteGID := intValue 10 f5 }, none) := by
  rw [parse_of_split fileline destPath t0 t1 f0 f1 f2 f3 f4 f5 h1 h2 h3]
  exact (parseFields_numerals _ _ _ _ _ _ _ _ _).mpr ⟨hw, hr, rfl, rfl⟩

/-- The number of parts of a split is the number of occurrences plus one. -/
theorem genSplitLoop_length (sep : GoString) (fuel : Nat) : ∀ s : GoString,
    (genSplitLoop sep (countLoop sep fuel s) s).length = countLoop sep fuel s + 1 := by
  induction fuel with
  | zero => intro s; simp [countLoop, genSplitLoop]
  | succ fuel ih =>
    intro s
    unfold countLoop
    cases h : Index s sep with
    | none => simp [genSplitLoop]
    | some i =>
      simp only []
      unfold genSplitLoop
      simp only [h, List.length_cons, ih]

theorem Split_length (s sep : GoString) : (Split s sep).length = Count s sep + 1 :=
  genSplitLoop_length sep s.length s

theorem split_two (fileline : GoString) (h : (Split fileline delimiter).length = 2) :
    Split fileline delimiter = [pathPart fileline, metaPart fileline] := by
  obtain ⟨a, b, hab⟩ := List.length_eq_two.mp h
  simp [pathPart, metaPart, hab]

theorem fields_six (fileline : GoString) (h : (fields fileline).length = 6) :
    fields fileline = [field fileline 0, field fileline 1, field fileline 2, field fileline 3,
      field fileline 4, field fileline 5] := by
  obtain ⟨a, b, c, d, e, f, hf⟩ := length_eq_six h
  simp [field, hf]

theorem land_typeMask (r m : Nat) (h : typeMask &&& m = m) : r &&& m = (r &&& typeMask) &&& m := by
  rw [Nat.land_assoc, h]

/-! ## The claims -/

/-- C2 (delimiter count). A line that does not split on `"///"` into exactly
two parts has no occurrence of the delimiter or at least two non-overlapping
ones, and the decoder returns no record and the error
`"[Downstream] Wrong fileline: "` followed by the whole line, whatever the
root path is. -/
theorem delimiter_count_malformed (fileline destPath : GoString)
    (h : (Split fileline delimiter).length ≠ 2) :
    (Count fileline delimiter = 0 ∨ 2 ≤ Count fileline delimiter) ∧
    parseFileInformation fileline destPath =
      some (none, some (Error.New (bytes "[Downstream] Wrong fileline: " ++ fileline))) := by
  constructor
  · rw [Split_length] at h; omega
  · rcases parse_cases fileline destPath with ⟨_, h1⟩ | ⟨_, _, ht, _⟩ | ⟨_, _, ht, _⟩ |
      ⟨_, _, _, _, _, _, _, _, ht, _⟩
    · exact h1
    all_goals
      exfalso; apply h
      have ht' : Split fileline delimiter = _ := ht
      rw [ht']; rfl

/-- Witness of C2: a line without delimiter and a line with two delimiters,
under a root longer than the text before the first delimiter. -/
theorem delimiter_count_malformed_witness :
    ((Split (bytes "/data/a.txt") delimiter).length ≠ 2 ∧
      parseFileInformation (bytes "/data/a.txt") (bytes "/data") =
        some (none, some (Error.New (bytes "[Downstream] Wrong fileline: " ++ bytes "/data/a.txt")))) ∧
    ((Split (bytes "/d///1///2") delimiter).length ≠ 2 ∧
      parseFileInformation (bytes "/d///1///2") (bytes "/data") =
        some (none, some (Error.New (bytes "[Downstream] Wrong fileline: " ++ bytes "/d///1///2")))) :=
  ⟨⟨by decide, (delimiter_count_malformed _ _ (by decide)).2⟩,
   ⟨by decide, (delimiter_count_malformed _ _ (by decide)).2⟩⟩

/-- C3 as stated fails: with root `/data` the line `/data///1,2` has two parts
and a metadata part of two fields, yet the decoder skips it (no record, no
error) instead of returning the malformed-line error. -/
theorem field_count_skipped_line :
    Split (bytes "/data///1,2") delimiter = [bytes "/data", bytes "1,2"] ∧
    (Split (bytes "1,2") comma).length ≠ 6 ∧
    parseFileInformation (bytes "/data///1,2") (bytes "/data") = some (none, none) ∧
    parseFileInformation (bytes "/data///1,2") (bytes "/data") ≠
      some (none, some (wrongFileline (bytes "/data///1,2"))) := by
  decide

/-- C3 (field count), amended. A line with exactly two parts whose path part
is longer than the root and whose metadata part does not split on `","` into
exactly 6 fields gives the malformed-line error naming the line, and no
record. -/
theorem field_count_malformed (fileline destPath t0 t1 : GoString)
    (h1 : Split fileline delimiter = [t0, t1]) (h2 : destPath.length < t0.length)
    (h3 : (Split t1 comma).length ≠ 6) :
    parseFileInformation fileline destPath =
      some (none, some (Error.New (bytes "[Downstream] Wrong fileline: " ++ fileline))) := by
  rcases parse_cases fileline destPath with ⟨hn, _⟩ | ⟨a, b, ht, hl, _⟩ | ⟨_, _, _, _, _, h4⟩ |
    ⟨a, b, _, _, _, _, _, _, ht, _, hf, _⟩
  · exfalso; apply hn
    have : Split fileline (bytes "///") = [t0, t1] := h1
    rw [this]; rfl
  · exfalso
    have : Split fileline delimiter = [a, b] := ht
    rw [h1] at this
    simp only [List.cons.injEq, and_true] at this
    rw [← this.1] at hl; omega
  · exact h4
  · exfalso
    have : Split fileline delimiter = [a, b] := ht
    rw [h1] at this
    simp only [List.cons.injEq, and_true] at this
    apply h3
    have hf' : Split b comma = _ := hf
    rw [this.2, hf']; rfl

/-- Witness of C3: seven fields and five fields behind a path longer than the
root. -/
theorem field_count_malformed_witness :
    Split (bytes "/data/a.txt///12,1690000000,81a4,644,1000") delimiter =
      [bytes "/data/a.txt", bytes "12,1690000000,81a4,644,1000"] ∧
    (bytes "/data").length < (bytes "/data/a.txt").length ∧
    (Split (bytes "12,1690000000,81a4,644,1000") comma).length ≠ 6 ∧
    parseFileInformation (bytes "/data/a.txt///12,1690000000,81a4,644,1000") (bytes "/data") =
      some (none, some (Error.New (bytes "[Downstream] Wrong fileline: " ++
        bytes "/data/a.txt///12,1690000000,81a4,644,1000"))) :=
  ⟨by decide, by decide, by decide,
    field_count_malformed _ (bytes "/data") (bytes "/data/a.txt") (bytes "12,1690000000,81a4,644,1000")
      (by decide) (by decide) (by decide)⟩

/-- C4 (root entry is skipped). A line with exactly two parts whose path part
is not longer than the root gives no record and no error, whatever the
metadata part contains. -/
theorem root_entry_skipped (fileline destPath t0 t1 : GoString)
    (h1 : Split fileline delimiter = [t0, t1]) (h2 : t0.length ≤ destPath.length) :
    parseFileInformation fileline destPath = some (none, none) := by
  rcases parse_cases fileline destPath with ⟨hn, _⟩ | ⟨_, _, _, _, h4⟩ | ⟨a, b, ht, hl, _⟩ |
    ⟨a, b, _, _, _, _, _, _, ht, hl, _⟩
  · exfalso; apply hn
    have : Split fileline (bytes "///") = [t0, t1] := h1
    rw [this]; rfl
  · exact h4
  all_goals
    exfalso
    have : Split fileline delimiter = [a, b] := ht
    rw [h1] at this
    simp only [List.cons.injEq, and_true] at this
    rw [← this.1] at hl; omega

/-- Witness of C4: root `/data`, line `/data///4096,1690000000,41ed,755,0,0`. -/
theorem root_entry_skipped_witness :
    Split (bytes "/data///4096,1690000000,41ed,755,0,0") delimiter =
      [bytes "/data", bytes "4096,1690000000,41ed,755,0,0"] ∧
    (bytes "/data").length ≤ (bytes "/data").length ∧
    parseFileInformation (bytes "/data///4096,1690000000,41ed,755,0,0") (bytes "/data") =
      some (none, none) :=
  ⟨by decide, by decide,
    root_entry_skipped _ (bytes "/data") (bytes "/data") (bytes "4096,1690000000,41ed,755,0,0")
      (by decide) (by decide)⟩

/-- C5 (name is the root-stripped path). The `Name` of a returned record is
the path part without its first `len(root)` bytes, whether or not the path
part begins with the root; it is not empty; and when the path part does begin
with the root, root followed by `Name` is the path part. -/
theorem name_is_sliced_path (fileline destPath : GoString) (info : fileInformation)
    (err : Option Error) (h : parseFileInformation fileline destPath = some (some info, err)) :
    info.Name = (pathPart fileline).drop destPath.length ∧ info.Name ≠ [] ∧
    (destPath <+: pathPart fileline → destPath ++ info.Name = pathPart fileline) := by
  obtain ⟨_, hlen, _, _, _, hinfo, _⟩ := parse_record fileline destPath info err h
  have hn : info.Name = (pathPart fileline).drop destPath.length := by rw [hinfo]
  refine ⟨hn, ?_, ?_⟩
  · intro he
    have h0 : info.Name.length = 0 := by rw [he]; rfl
    rw [hn, List.length_drop] at h0
    omega
  · rintro ⟨r, hr⟩
    rw [hn, ← hr, List.drop_left]

/-- Witness of C5: under root `/data` a path that begins with the root, and
under root `/srv/` a path that does not. -/
theorem name_is_sliced_path_witness :
    (parseFileInformation (bytes "/data/a.txt///12,1690000000,81a4,644,1000,1000") (bytes "/data") =
        some (some ⟨bytes "/a.txt", 12, 1690000000, false, false, 0o644, 1000, 1000⟩, none) ∧
      bytes "/a.txt" = (pathPart (bytes "/data/a.txt///12,1690000000,81a4,644,1000,1000")).drop
        (bytes "/data").length) ∧
    (parseFileInformation (bytes "/data/a.txt///12,1690000000,81a4,644,1000,1000") (bytes "/srv/") =
        some (some ⟨bytes "/a.txt", 12, 1690000000, false, false, 0o644, 1000, 1000⟩, none) ∧
      ¬ (bytes "/srv/" <+: pathPart (bytes "/data/a.txt///12,1690000000,81a4,644,1000,1000")) ∧
      bytes "/a.txt" = (pathPart (bytes "/data/a.txt///12,1690000000,81a4,644,1000,1000")).drop
        (bytes "/srv/").length) :=
  ⟨⟨by decide,
    (name_is_sliced_path _ (bytes "/data")
      ⟨bytes "/a.txt", 12, 1690000000, false, false, 0o644, 1000, 1000⟩ none (by decide)).1⟩,
   ⟨by decide, by decide,
    (name_is_sliced_path _ (bytes "/srv/")
      ⟨bytes "/a.txt", 12, 1690000000, false, false, 0o644, 1000, 1000⟩ none (by decide)).1⟩⟩

/-- C6 (field values on success). A returned record comes from exactly six
metadata fields and holds their values: `Size` the decimal value of field 0,
`Mtime` of field 1, `RemoteMode` the signed octal value of field 3,
`RemoteUID` the decimal value of field 4 and `RemoteGID` of field 5, none of
them wrapped. Conversely a line with two parts, a path part longer than the
root and six well-formed fields within range gives a record and no error. -/
theorem field_values_on_success (fileline destPath : GoString) :
    (∀ info err, parseFileInformation fileline destPath = some (some info, err) →
      (fields fileline).length = 6 ∧
      info.Size = intValue 10 (field fileline 0) ∧ info.Mtime = intValue 10 (field fileline 1) ∧
      info.RemoteMode = intValue 8 (field fileline 3) ∧
      info.RemoteUID = intValue 10 (field fileline 4) ∧
      info.RemoteGID = intValue 10 (field fileline 5)) ∧
    ((Split fileline delimiter).length = 2 → destPath.length < (pathPart fileline).length →
      (fields fileline).length = 6 →
      WellFormedFields (field fileline 0) (field fileline 1) (field fileline 2) (field fileline 3)
        (field fileline 4) (field fileline 5) →
      FieldsInRange (field fileline 0) (field fileline 1) (field fileline 2) (field fileline 3)
        (field fileline 4) (field fileline 5) →
      ∃ info, parseFileInformation fileline destPath = some (some info, none)) := by
  constructor
  · intro info err h
    obtain ⟨_, _, hf, _, _, hinfo, _⟩ := parse_record fileline destPath info err h
    refine ⟨by rw [hf]; rfl, ?_⟩
    rw [hinfo]
    exact ⟨rfl, rfl, rfl, rfl, rfl⟩
  · intro h2 hlen h6 hw hr
    exact ⟨_, parse_of_fields fileline destPath _ _ _ _ _ _ _ _ (split_two fileline h2) hlen
      (fields_six fileline h6) hw hr⟩

/-- Witness of C6: root `/data`, line
`/data/a.txt///12,-1690000000,81a4,644,1000,100`. -/
theorem field_values_on_success_witness :
    parseFileInformation (bytes "/data/a.txt///12,-1690000000,81a4,644,1000,100") (bytes "/data") =
      some (some ⟨bytes "/a.txt", 12, -1690000000, false, false, 0o644, 1000, 100⟩, none) ∧
    ((fields (bytes "/data/a.txt///12,-1690000000,81a4,644,1000,100")).length = 6 ∧
      (12 : Int) = intValue 10 (field (bytes "/data/a.txt///12,-1690000000,81a4,644,1000,100") 0) ∧
      (-1690000000 : Int) =
        intValue 10 (field (bytes "/data/a.txt///12,-1690000000,81a4,644,1000,100") 1) ∧
      (0o644 : Int) = intValue 8 (field (bytes "/data/a.txt///12,-1690000000,81a4,644,1000,100") 3) ∧
      (1000 : Int) = intValue 10 (field (bytes "/data/a.txt///12,-1690000000,81a4,644,1000,100") 4) ∧
      (100 : Int) = intValue 10 (field (bytes "/data/a.txt///12,-1690000000,81a4,644,1000,100") 5)) ∧
    (∃ info, parseFileInformation (bytes "/data/a.txt///12,-1690000000,81a4,644,1000,100")
      (bytes "/data") = some (some info, none)) :=
  ⟨by decide,
   (field_values_on_success _ (bytes "/data")).1
     ⟨bytes "/a.txt", 12, -1690000000, false, false, 0o644, 1000, 100⟩ none (by decide),
   (field_values_on_success (bytes "/data/a.txt///12,-1690000000,81a4,644,1000,100")
     (bytes "/data")).2 (by decide) (by decide) (by decide) (by decide) (by decide)⟩

/-- C7 (type flags use mask equality). In a returned record, with `r` the
hexadecimal value of the third metadata field, `IsSymbolicLink` says whether
`r AND 0o120000` equals `0o120000` and `IsDirectory` whether `r AND 0o040000`
equals `0o040000`. -/
theorem type_flags_mask_equality (fileline destPath : GoString) (info : fileInformation)
    (err : Option Error) (h : parseFileInformation fileline destPath = some (some info, err)) :
    info.IsSymbolicLink = decide (natValue 16 (field fileline 2) &&& 0o120000 = 0o120000) ∧
    info.IsDirectory = decide (natValue 16 (field fileline 2) &&& 0o040000 = 0o040000) := by
  obtain ⟨_, _, _, _, _, hinfo, _⟩ := parse_record fileline destPath info err h
  rw [hinfo]
  exact ⟨rfl, rfl⟩

/-- Witness of C7: a regular file, raw mode `0x81a4 = 0o100644`, shares a bit
with the symlink mask and is not reported as a symbolic link. -/
theorem type_flags_mask_equality_witness :
    parseFileInformation (bytes "/data/a.txt///12,1690000000,81a4,644,1000,1000") (bytes "/data") =
      some (some ⟨bytes "/a.txt", 12, 1690000000, false, false, 0o644, 1000, 1000⟩, none) ∧
    natValue 16 (field (bytes "/data/a.txt///12,1690000000,81a4,644,1000,1000") 2) = 0x81a4 ∧
    natValue 16 (field (bytes "/data/a.txt///12,1690000000,81a4,644,1000,1000") 2) &&& 0o120000 ≠ 0 ∧
    (false = decide
        (natValue 16 (field (bytes "/data/a.txt///12,1690000000,81a4,644,1000,1000") 2) &&& 0o120000
          = 0o120000) ∧
      false = decide
        (natValue 16 (field (bytes "/data/a.txt///12,1690000000,81a4,644,1000,1000") 2) &&& 0o040000
          = 0o040000)) :=
  ⟨by decide, by decide, by decide,
   type_flags_mask_equality _ (bytes "/data")
     ⟨bytes "/a.txt", 12, 1690000000, false, false, 0o644, 1000, 1000⟩ none (by decide)⟩

/-- C8 fails on the code: the line of a socket, raw mode `0xc1ed = 0o140755`,
decodes to a record with `IsDirectory = true` although its file-type bits are
`0o140000`, a POSIX type other than the directory type `0o040000`. -/
theorem socket_reported_as_directory :
    parseFileInformation (bytes "/data/app.sock///0,1690000000,c1ed,755,0,0") (bytes "/data") =
      some (some ⟨bytes "/app.sock", 0, 1690000000, false, true, 0o755, 0, 0⟩, none) ∧
    natValue 16 (field (bytes "/data/app.sock///0,1690000000,c1ed,755,0,0") 2) &&& typeMask
      = 0o140000 ∧
    0o140000 ∈ posixTypes ∧ (0o140000 : Nat) ≠ 0o040000 := by
  decide

/-- C9 (flags are mutually exclusive on POSIX modes). In a record decoded from
a raw mode whose file-type bits are one of the seven POSIX file types,
`IsSymbolicLink` and `IsDirectory` are not both true. -/
theorem flags_exclusive_on_posix_modes (fileline destPath : GoString) (info : fileInformation)
    (err : Option Error) (h : parseFileInformation fileline destPath = some (some info, err))
    (hp : natValue 16 (field fileline 2) &&& typeMask ∈ posixTypes) :
    ¬ (info.IsSymbolicLink = true ∧ info.IsDirectory = true) := by
  obtain ⟨_, _, _, _, _, hinfo, _⟩ := parse_record fileline destPath info err h
  rw [hinfo]
  simp only [decide_eq_true_eq]
  rw [land_typeMask _ IsSymbolicLink (by decide), land_typeMask _ IsDirectory (by decide)]
  unfold posixTypes at hp
  simp only [List.mem_cons, List.mem_singleton, List.not_mem_nil, or_false] at hp
  rcases hp with hp | hp | hp | hp | hp | hp | hp <;> rw [hp] <;> decide

/-- Witness of C9: a symbolic link, raw mode `0xa1ff = 0o120777`. -/
theorem flags_exclusive_on_posix_modes_witness :
    parseFileInformation (bytes "/data/link///7,1690000000,a1ff,777,0,0") (bytes "/data") =
      some (some ⟨bytes "/link", 7, 1690000000, true, false, 0o777, 0, 0⟩, none) ∧
    natValue 16 (field (bytes "/data/link///7,1690000000,a1ff,777,0,0") 2) &&& typeMask
      ∈ posixTypes ∧
    ¬ ((true : Bool) = true ∧ (false : Bool) = true) :=
  ⟨by decide, by decide,
   flags_exclusive_on_posix_modes (bytes "/data/link///7,1690000000,a1ff,777,0,0") (bytes "/data")
     ⟨bytes "/link", 7, 1690000000, true, false, 0o777, 0, 0⟩ none (by decide) (by decide)⟩

/-- C10 (numeric decode failure aborts). A line with two parts, a path part
longer than the root and six metadata fields of which at least one is not a
well-formed numeral of its base gives no record and the traced error of a
failed conversion of one of the fields, which is not the malformed-line
error. -/
theorem numeric_failure_aborts (fileline destPath t0 t1 f0 f1 f2 f3 f4 f5 : GoString)
    (h1 : Split fileline delimiter = [t0, t1]) (h2 : destPath.length < t0.length)
    (h3 : Split t1 comma = [f0, f1, f2, f3, f4, f5])
    (h4 : ¬ WellFormedFields f0 f1 f2 f3 f4 f5) :
    ∃ e : NumError,
      parseFileInformation fileline destPath = some (none, some (Error.Trace e)) ∧
      Error.Trace e ≠ wrongFileline fileline ∧
      ((∃ v, Atoi f0 = (v, some e)) ∨ (∃ v, Atoi f1 = (v, some e)) ∨
       (∃ v, ParseUint f2 16 32 = (v, some e)) ∨ (∃ v, ParseInt f3 8 32 = (v, some e)) ∨
       (∃ v, Atoi f4 = (v, some e)) ∨ (∃ v, Atoi f5 = (v, some e))) := by
  rw [parse_of_split fileline destPath t0 t1 f0 f1 f2 f3 f4 f5 h1 h2 h3]
  rcases parseFields_total (t0.drop destPath.length) f0 f1 f2 f3 f4 f5 with ⟨info, hi⟩ | ⟨e, he⟩
  · exact absurd ((parseFields_numerals _ _ _ _ _ _ _ _ _).mp hi).1 h4
  · obtain ⟨e', he1, he2⟩ := parseFields_no_record _ _ _ _ _ _ _ _ he
    simp only [Option.some.injEq, Error.Trace.injEq] at he1
    subst he1
    exact ⟨e, he, by simp [wrongFileline], he2⟩

/-- Witness of C10: the permission field `648` has a digit outside base 8. -/
theorem numeric_failure_aborts_witness :
    Split (bytes "/data/a.txt///12,1690000000,81a4,648,1000,1000") delimiter =
      [bytes "/data/a.txt", bytes "12,1690000000,81a4,648,1000,1000"] ∧
    (bytes "/data").length < (bytes "/data/a.txt").length ∧
    Split (bytes "12,1690000000,81a4,648,1000,1000") comma =
      [bytes "12", bytes "1690000000", bytes "81a4", bytes "648", bytes "1000", bytes "1000"] ∧
    ¬ WellFormedFields (bytes "12") (bytes "1690000000") (bytes "81a4") (bytes "648") (bytes "1000")
      (bytes "1000") ∧
    ∃ e : NumError,
      parseFileInformation (bytes "/data/a.txt///12,1690000000,81a4,648,1000,1000") (bytes "/data") =
        some (none, some (Error.Trace e)) ∧
      Error.Trace e ≠ wrongFileline (bytes "/data/a.txt///12,1690000000,81a4,648,1000,1000") ∧
      ((∃ v, Atoi (bytes "12") = (v, some e)) ∨ (∃ v, Atoi (bytes "1690000000") = (v, some e)) ∨
       (∃ v, ParseUint (bytes "81a4") 16 32 = (v, some e)) ∨
       (∃ v, ParseInt (bytes "648") 8 32 = (v, some e)) ∨
       (∃ v, Atoi (bytes "1000") = (v, some e)) ∨ (∃ v, Atoi (bytes "1000") = (v, some e))) :=
  ⟨by decide, by decide, by decide, by decide,
   numeric_failure_aborts _ (bytes "/data") (bytes "/data/a.txt")
     (bytes "12,1690000000,81a4,648,1000,1000") (bytes "12") (bytes "1690000000") (bytes "81a4")
     (bytes "648") (bytes "1000") (bytes "1000") (by decide) (by decide) (by decide) (by decide)⟩

/-! ## Facts about `strings.Split` -/

theorem Index_nil {sep : GoString} (h : sep ≠ []) : Index [] sep = none := by
  cases sep with
  | nil => exact absurd rfl h
  | cons a l => rfl

theorem Index_some_ne_nil {sep s : GoString} {i : Nat} (h : sep ≠ []) (hi : Index s sep = some i) :
    s ≠ [] := by
  intro hs
  rw [hs, Index_nil h] at hi
  cases hi

theorem countLoop_succ (sep : GoString) (hsep : sep ≠ []) (fuel : Nat) : ∀ s : GoString,
    s.length ≤ fuel → countLoop sep (fuel + 1) s = countLoop sep fuel s := by
  induction fuel with
  | zero =>
    intro s hs
    have : s = [] := List.length_eq_zero.mp (by omega)
    subst this
    simp [countLoop, Index_nil hsep]
  | succ fuel ih =>
    intro s hs
    rw [countLoop, countLoop]
    cases h : Index s sep with
    | none => rfl
    | some i =>
      simp only []
      have hne := Index_some_ne_nil hsep h
      have hl : 0 < s.length := List.length_pos.mpr hne
      have hsl : 0 < sep.length := List.length_pos.mpr hsep
      rw [ih _ (by rw [List.length_drop]; omega)]

/-- More fuel than `len(s)` does not change the count: `Count` runs its loop to
the end. -/
theorem countLoop_fuel (sep : GoString) (hsep : sep ≠ []) (k : Nat) : ∀ s : GoString,
    countLoop sep (s.length + k) s = countLoop sep s.length s := by
  induction k with
  | zero => intro s; rfl
  | succ k ih =>
    intro s
    rw [← Nat.add_assoc, countLoop_succ sep hsep _ s (by omega), ih]

/-- `Split` cuts at the leftmost occurrence and splits the rest. -/
theorem Split_eq (s sep : GoString) (hsep : sep ≠ []) :
    Split s sep =
      match Index s sep with
      | none => [s]
      | some m => s.take m :: Split (s.drop (m + sep.length)) sep := by
  unfold Split Count
  cases h : Index s sep with
  | none =>
    cases hl : s.length with
    | zero => simp [countLoop, genSplitLoop]
    | succ n => simp [countLoop, genSplitLoop, h]
  | some i =>
    have hne := Index_some_ne_nil hsep h
    have hsl : 0 < sep.length := List.length_pos.mpr hsep
    obtain ⟨n, hn⟩ : ∃ n, s.length = n + 1 := ⟨s.length - 1, by
      have := List.length_pos.mpr hne; omega⟩
    rw [hn]
    simp only [countLoop, h, genSplitLoop]
    have hd : (s.drop (i + sep.length)).length ≤ n := by rw [List.length_drop]; omega
    obtain ⟨k, hk⟩ : ∃ k, n = (s.drop (i + sep.length)).length + k := ⟨n - (s.drop (i + sep.length)).length, by omega⟩
    rw [hk, countLoop_fuel sep hsep k]

theorem Split_of_Index_none (s sep : GoString) (hsep : sep ≠ []) (h : Index s sep = none) :
    Split s sep = [s] := by
  rw [Split_eq s sep hsep, h]

theorem Split_of_Index_some (s sep : GoString) (hsep : sep ≠ []) (m : Nat)
    (h : Index s sep = some m) :
    Split s sep = s.take m :: Split (s.drop (m + sep.length)) sep := by
  rw [Split_eq s sep hsep, h]

theorem comma_def : comma = [44] := by decide

theorem delimiter_def : delimiter = [47, 47, 47] := by decide

theorem Index_comma_none (s : GoString) (h : (44 : UInt8) ∉ s) : Index s [44] = none := by
  induction s with
  | nil => rfl
  | cons c cs ih =>
    simp only [List.mem_cons, not_or] at h
    have hc : ¬ (44 : UInt8) = c := h.1
    simp [Index, List.isPrefixOf, hc, ih h.2]

theorem Index_comma_append (f rest : GoString) (h : (44 : UInt8) ∉ f) :
    Index (f ++ 44 :: rest) [44] = some f.length := by
  induction f with
  | nil => simp [Index, List.isPrefixOf]
  | cons c cs ih =>
    simp only [List.mem_cons, not_or] at h
    have hc : ¬ (44 : UInt8) = c := h.1
    simp [Index, List.isPrefixOf, hc, ih h.2]

/-- A field without comma in front of a comma is the first part of the split. -/
theorem Split_comma_cons (f rest : GoString) (h : (44 : UInt8) ∉ f) :
    Split (f ++ 44 :: rest) comma = f :: Split rest comma := by
  rw [comma_def, Split_of_Index_some _ _ (by simp) _ (Index_comma_append f rest h)]
  simp

/-- A field without comma is the only part of its split. -/
theorem Split_comma_last (f : GoString) (h : (44 : UInt8) ∉ f) : Split f comma = [f] := by
  rw [comma_def, Split_of_Index_none _ _ (by simp) (Index_comma_none f h)]

theorem Index_delimiter_none (s : GoString) (h : (47 : UInt8) ∉ s) : Index s [47, 47, 47] = none := by
  induction s with
  | nil => rfl
  | cons c cs ih =>
    simp only [List.mem_cons, not_or] at h
    have hc : ¬ (47 : UInt8) = c := h.1
    simp [Index, List.isPrefixOf, hc, ih h.2]

theorem Index_delimiter_append (p m : GoString) (h1 : ¬ delimiter <:+: p)
    (h2 : p.getLast? ≠ some 47) :
    Index (p ++ 47 :: 47 :: 47 :: m) [47, 47, 47] = some p.length := by
  induction p with
  | nil => simp [Index, List.isPrefixOf]
  | cons c cs ih =>
    have h3 : ¬ delimiter <:+: cs := fun hh => h1 (hh.trans (List.suffix_cons c cs).isInfix)
    have h4 : cs.getLast? ≠ some 47 := by
      cases cs with
      | nil => simp
      | cons d ds => simpa [List.getLast?_cons_cons] using h2
    have h5 : List.isPrefixOf [47, 47, 47] (c :: cs ++ 47 :: 47 :: 47 :: m) = false := by
      match cs, h1, h2 with
      | [], _, h2 =>
        have : ¬ c = 47 := by simpa using h2
        have : ¬ (47 : UInt8) = c := fun hh => this hh.symm
        simp [List.isPrefixOf, this]
      | [d], _, h2 =>
        have : ¬ d = 47 := by simpa using h2
        have : ¬ (47 : UInt8) = d := fun hh => this hh.symm
        simp [List.isPrefixOf, this]
      | d :: e :: ds, h1, _ =>
        by_contra hp
        simp only [List.isPrefixOf, List.cons_append, Bool.and_true, Bool.not_eq_false,
          Bool.and_eq_true, beq_iff_eq] at hp
        apply h1
        rw [delimiter_def, ← hp.1, ← hp.2.1, ← hp.2.2]
        exact (List.prefix_append [47, 47, 47] ds).isInfix
    simp only [List.cons_append] at h5
    simp [Index, h5, ih h3 h4]

/-- A path without `"///"` that does not end in `"/"`, the delimiter, and a
text without `"/"` split into the path and the text. -/
theorem Split_delimiter (p m : GoString) (h1 : ¬ delimiter <:+: p) (h2 : p.getLast? ≠ some 47)
    (h3 : (47 : UInt8) ∉ m) :
    Split (p ++ 47 :: 47 :: 47 :: m) delimiter = [p, m] := by
  rw [delimiter_def] at h1 ⊢
  rw [Split_of_Index_some _ _ (by simp) _ (Index_delimiter_append p m (by rw [delimiter_def]; exact h1) h2)]
  have : List.drop (p.length + 3) (p ++ 47 :: 47 :: 47 :: m) = m := by
    rw [List.drop_append]; rfl
  simp only [List.length_cons, List.length_nil, Nat.zero_add, Nat.reduceAdd, this,
    List.take_left']
  rw [Split_of_Index_none _ _ (by simp) (Index_delimiter_none m h3)]

/-! ## Facts about the numerals of the encoded line -/

theorem digitByte_toNat {d : Nat} (h : d < 16) :
    (digitByte d).toNat = if d < 10 then 48 + d else 87 + d := by
  unfold digitByte
  split_ifs with h1
  · show (48 + d) % 256 = 48 + d
    omega
  · show (87 + d) % 256 = 87 + d
    omega

theorem digitOfByte_digitByte {d : Nat} (h : d < 16) : digitOfByte (digitByte d) = some d := by
  unfold digitOfByte
  rw [digitByte_toNat h]
  by_cases h1 : d < 10
  · simp only [h1, if_true]
    rw [if_pos (by omega)]
    congr 1; omega
  · simp only [h1, if_false]
    rw [if_neg (by omega), if_pos (by omega)]
    congr 1; omega

theorem numeralByte_digitByte {d : Nat} (h : d < 16) : numeralByte (digitByte d) := by
  unfold numeralByte
  rw [digitByte_toNat h]
  split_ifs <;> omega

theorem natValue_append_singleton (base : Nat) (ds : GoString) (x : UInt8) :
    natValue base (ds ++ [x]) = natValue base ds * base + digitValue x := by
  simp [natValue, List.foldl_append]

/-- The digits `formatLoop` puts in front of the accumulator: at least one,
all digits of the base, with the value `n`. -/
theorem formatLoop_spec (base : Nat) (hb : 2 ≤ base ∧ base ≤ 16) (fuel : Nat) :
    ∀ (n : Nat) (acc : GoString), n < fuel →
      ∃ ds : GoString, formatLoop base fuel n acc = ds ++ acc ∧ ds ≠ [] ∧
        (∀ c ∈ ds, accepts base c ∧ numeralByte c) ∧ natValue base ds = n := by
  induction fuel with
  | zero => intro n acc h; omega
  | succ fuel ih =>
    intro n acc hn
    unfold formatLoop
    by_cases h : n < base
    · rw [if_pos h]
      refine ⟨[digitByte n], rfl, by simp, ?_, ?_⟩
      · intro c hc
        rw [List.mem_singleton] at hc
        rw [hc]
        exact ⟨⟨n, digitOfByte_digitByte (by omega), h⟩, numeralByte_digitByte (by omega)⟩
      · simp [natValue, digitOfByte_value (digitOfByte_digitByte (show n < 16 by omega))]
    · rw [if_neg h]
      have hdiv : n / base < n := Nat.div_lt_self (by omega) (by omega)
      have hmod : n % base < base := Nat.mod_lt _ (by omega)
      obtain ⟨ds, h1, h2, h3, h4⟩ := ih (n / base) (digitByte (n % base) :: acc) (by omega)
      refine ⟨ds ++ [digitByte (n % base)], by rw [h1]; simp, by simp, ?_, ?_⟩
      · intro c hc
        rw [List.mem_append, List.mem_singleton] at hc
        rcases hc with hc | hc
        · exact h3 c hc
        · rw [hc]
          exact ⟨⟨n % base, digitOfByte_digitByte (by omega), hmod⟩,
            numeralByte_digitByte (by omega)⟩
      · rw [natValue_append_singleton, h4,
          digitOfByte_value (digitOfByte_digitByte (show n % base < 16 by omega))]
        exact Nat.div_add_mod' n base

theorem formatNat_spec (base : Nat) (hb : 2 ≤ base ∧ base ≤ 16) (n : Nat) :
    formatNat base n ≠ [] ∧ (∀ c ∈ formatNat base n, accepts base c ∧ numeralByte c) ∧
      natValue base (formatNat base n) = n := by
  obtain ⟨ds, h1, h2, h3, h4⟩ := formatLoop_spec base hb (n + 1) n [] (by omega)
  unfold formatNat
  rw [h1, List.append_nil]
  exact ⟨h2, h3, h4⟩

theorem numeralByte_not_sign {c : UInt8} (h : numeralByte c) : ¬ (c = 43 ∨ c = 45) := by
  unfold numeralByte at h
  rintro (hc | hc) <;> rw [hc] at h <;> revert h <;> decide

theorem numeralByte_not_separator {c : UInt8} (h : numeralByte c) : c ≠ 44 ∧ c ≠ 47 := by
  unfold numeralByte at h
  constructor <;> intro hc <;> rw [hc] at h <;> revert h <;> decide

theorem digitsPart_of_numeral (s : GoString) (h : ∀ c ∈ s, numeralByte c) :
    digitsPart s = s ∧ isNegative s = false := by
  cases s with
  | nil => exact ⟨rfl, rfl⟩
  | cons c r =>
    have h1 := numeralByte_not_sign (h c (List.mem_cons_self _ _))
    have h2 : ¬ c = 45 := fun hh => h1 (Or.inr hh)
    constructor
    · show (if c = 43 ∨ c = 45 then r else c :: r) = c :: r
      rw [if_neg h1]
    · simp [isNegative, h2]

/-- The decimal numeral of an integer is a signed decimal numeral with that
value, free of `','` and `'/'`. -/
theorem dec_spec (i : Int) :
    IsSignedNumeral isDecDigit (dec i) ∧ intValue 10 (dec i) = i ∧
      (44 : UInt8) ∉ dec i ∧ (47 : UInt8) ∉ dec i := by
  obtain ⟨h1, h2, h3⟩ := formatNat_spec 10 (by omega) i.natAbs
  have h4 := digitsPart_of_numeral (formatNat 10 i.natAbs) (fun c hc => (h2 c hc).2)
  have hnum : IsNumeral isDecDigit (formatNat 10 i.natAbs) :=
    ⟨h1, fun c hc => (isDecDigit_iff c).mpr (h2 c hc).1⟩
  have hsep : ∀ b : UInt8, (b = 44 ∨ b = 47) → b ∉ formatNat 10 i.natAbs := by
    intro b hb hmem
    have := numeralByte_not_separator (h2 b hmem).2
    rcases hb with hb | hb
    · exact this.1 hb
    · exact this.2 hb
  unfold dec
  by_cases hi : i < 0
  · simp only [hi, if_true]
    have hd : digitsPart (45 :: formatNat 10 i.natAbs) = formatNat 10 i.natAbs := by
      simp [digitsPart]
    refine ⟨by unfold IsSignedNumeral; rw [hd]; exact hnum, ?_, ?_, ?_⟩
    · unfold intValue
      rw [hd, h3]
      simp only [isNegative_cons, decide_True, if_true, Int.ofNat_eq_coe]
      omega
    · simp only [List.mem_cons, not_or]
      exact ⟨by decide, hsep 44 (Or.inl rfl)⟩
    · simp only [List.mem_cons, not_or]
      exact ⟨by decide, hsep 47 (Or.inr rfl)⟩
  · simp only [hi, if_false]
    refine ⟨by unfold IsSignedNumeral; rw [h4.1]; exact hnum, ?_, hsep 44 (Or.inl rfl),
      hsep 47 (Or.inr rfl)⟩
    unfold intValue
    rw [h4.1, h4.2, h3]
    simp only [Bool.false_eq_true, if_false, Int.ofNat_eq_coe]
    omega

/-- The hexadecimal numeral of a number is an unsigned hexadecimal numeral with
that value, free of `','` and `'/'`. -/
theorem hex_spec (n : Nat) :
    IsNumeral isHexDigit (hex n) ∧ natValue 16 (hex n) = n ∧
      (44 : UInt8) ∉ hex n ∧ (47 : UInt8) ∉ hex n := by
  obtain ⟨h1, h2, h3⟩ := formatNat_spec 16 (by omega) n
  unfold hex
  refine ⟨⟨h1, fun c hc => (isHexDigit_iff c).mpr (h2 c hc).1⟩, h3, ?_, ?_⟩
  · intro hmem; exact (numeralByte_not_separator (h2 _ hmem).2).1 rfl
  · intro hmem; exact (numeralByte_not_separator (h2 _ hmem).2).2 rfl

/-- The octal numeral of a number is an octal numeral with that value, free of
`','` and `'/'`. -/
theorem oct_spec (n : Nat) :
    IsSignedNumeral isOctDigit (oct n) ∧ intValue 8 (oct n) = n ∧
      (44 : UInt8) ∉ oct n ∧ (47 : UInt8) ∉ oct n := by
  obtain ⟨h1, h2, h3⟩ := formatNat_spec 8 (by omega) n
  have h4 := digitsPart_of_numeral (formatNat 8 n) (fun c hc => (h2 c hc).2)
  unfold oct
  refine ⟨?_, ?_, ?_, ?_⟩
  · unfold IsSignedNumeral
    rw [h4.1]
    exact ⟨h1, fun c hc => (isOctDigit_iff c).mpr (h2 c hc).1⟩
  · unfold intValue
    rw [h4.1, h4.2, h3]
    simp
  · intro hmem; exact (numeralByte_not_separator (h2 _ hmem).2).1 rfl
  · intro hmem; exact (numeralByte_not_separator (h2 _ hmem).2).2 rfl

/-! ## The round trip of one line -/

theorem encodeLine_eq (p : GoString) (size mtime : Int) (rawMode perm : Nat) (uid gid : Int) :
    encodeLine p size mtime rawMode perm uid gid =
      p ++ 47 :: 47 :: 47 :: encodeMeta size mtime rawMode perm uid gid := by
  have h1 : bytes "///" = [47, 47, 47] := by decide
  have h2 : bytes "," = [44] := by decide
  unfold encodeLine encodeMeta
  rw [h1, h2]
  simp [List.append_assoc]

theorem encodeMeta_no_slash (size mtime : Int) (rawMode perm : Nat) (uid gid : Int) :
    (47 : UInt8) ∉ encodeMeta size mtime rawMode perm uid gid := by
  unfold encodeMeta
  simp only [List.mem_append, List.mem_cons, not_or]
  exact ⟨(dec_spec size).2.2.2, by decide, (dec_spec mtime).2.2.2, by decide, (hex_spec rawMode).2.2.2,
    by decide, (oct_spec perm).2.2.2, by decide, (dec_spec uid).2.2.2, by decide,
    (dec_spec gid).2.2.2⟩

/-- The metadata part of an encoded line splits on `","` into its six
numerals. -/
theorem encodeMeta_split (size mtime : Int) (rawMode perm : Nat) (uid gid : Int) :
    Split (encodeMeta size mtime rawMode perm uid gid) comma =
      [dec size, dec mtime, hex rawMode, oct perm, dec uid, dec gid] := by
  unfold encodeMeta
  rw [Split_comma_cons _ _ (dec_spec size).2.2.1, Split_comma_cons _ _ (dec_spec mtime).2.2.1,
    Split_comma_cons _ _ (hex_spec rawMode).2.2.1, Split_comma_cons _ _ (oct_spec perm).2.2.1,
    Split_comma_cons _ _ (dec_spec uid).2.2.1, Split_comma_last _ (dec_spec gid).2.2.1]

/-- The encoded line of a path without `"///"` that does not end in `"/"`
splits on the delimiter into the path and the metadata part. -/
theorem encodeLine_split (p : GoString) (size mtime : Int) (rawMode perm : Nat) (uid gid : Int)
    (h1 : ¬ delimiter <:+: p) (h2 : p.getLast? ≠ some 47) :
    Split (encodeLine p size mtime rawMode perm uid gid) delimiter =
      [p, encodeMeta size mtime rawMode perm uid gid] := by
  rw [encodeLine_eq]
  exact Split_delimiter p _ h1 h2 (encodeMeta_no_slash _ _ _ _ _ _)

/-- Decoding the encoded line of a path `root ++ rel` without `"///"` that
does not end in `"/"` gives back the tuple, with `rel` as name. -/
theorem roundtrip_core (root rel : GoString) (size mtime : Int) (rawMode perm : Nat) (uid gid : Int)
    (hrel : rel ≠ []) (hno : ¬ delimiter <:+: root ++ rel) (hend : (root ++ rel).getLast? ≠ some 47)
    (hsize : -(2 ^ 63 : Int) ≤ size ∧ size < 2 ^ 63) (hmtime : -(2 ^ 63 : Int) ≤ mtime ∧ mtime < 2 ^ 63)
    (hraw : rawMode < 2 ^ 32) (hperm : perm < 2 ^ 31)
    (huid : -(2 ^ 63 : Int) ≤ uid ∧ uid < 2 ^ 63) (hgid : -(2 ^ 63 : Int) ≤ gid ∧ gid < 2 ^ 63) :
    parseFileInformation (encodeLine (root ++ rel) size mtime rawMode perm uid gid) root =
      some (some { Name := rel, Size := size, Mtime := mtime,
                   IsSymbolicLink := decide (rawMode &&& IsSymbolicLink = IsSymbolicLink),
                   IsDirectory := decide (rawMode &&& IsDirectory = IsDirectory),
                   RemoteMode := perm, RemoteUID := uid, RemoteGID := gid }, none) := by
  have hlen : root.length < (root ++ rel).length := by
    rw [List.length_append]
    have := List.length_pos.mpr hrel
    omega
  have hw : WellFormedFields (dec size) (dec mtime) (hex rawMode) (oct perm) (dec uid) (dec gid) :=
    ⟨(dec_spec size).1, (dec_spec mtime).1, (hex_spec rawMode).1, (oct_spec perm).1,
      (dec_spec uid).1, (dec_spec gid).1⟩
  have hr : FieldsInRange (dec size) (dec mtime) (hex rawMode) (oct perm) (dec uid) (dec gid) := by
    unfold FieldsInRange
    rw [(dec_spec size).2.1, (dec_spec mtime).2.1, (hex_spec rawMode).2.1, (oct_spec perm).2.1,
      (dec_spec uid).2.1, (dec_spec gid).2.1]
    exact ⟨hsize, hmtime, hraw, ⟨by omega, by omega⟩, huid, hgid⟩
  rw [parse_of_fields _ root _ _ _ _ _ _ _ _
    (encodeLine_split (root ++ rel) size mtime rawMode perm uid gid hno hend) hlen
    (encodeMeta_split size mtime rawMode perm uid gid) hw hr]
  rw [(dec_spec size).2.1, (dec_spec mtime).2.1, (hex_spec rawMode).2.1, (oct_spec perm).2.1,
    (dec_spec uid).2.1, (dec_spec gid).2.1, List.drop_left]

/-- C1 as stated fails: with root `/data` the path `/data/sub/` contains no
`"///"`, yet in its encoded line the last byte of the path joins the
delimiter, the split gives `/data/sub` and a metadata part that begins with
`"/"`, and the decoder returns the error of the first conversion. -/
theorem roundtrip_fails_on_trailing_slash :
    bytes "/sub/" ≠ [] ∧ ¬ delimiter <:+: bytes "/data" ++ bytes "/sub/" ∧
    encodeLine (bytes "/data" ++ bytes "/sub/") 4096 1690000000 0x41ed 0o755 0 0 =
      bytes "/data/sub////4096,1690000000,41ed,755,0,0" ∧
    Split (bytes "/data/sub////4096,1690000000,41ed,755,0,0") delimiter =
      [bytes "/data/sub", bytes "/4096,1690000000,41ed,755,0,0"] ∧
    parseFileInformation (encodeLine (bytes "/data" ++ bytes "/sub/") 4096 1690000000 0x41ed 0o755 0 0)
      (bytes "/data") =
      some (none, some (Error.Trace ⟨"Atoi", bytes "/4096", ParseErr.ErrSyntax⟩)) := by
  decide

/-- C1 (round trip of one listing line), amended. For a root path `root`, a
path `root ++ rel` with `rel` not empty that contains no `"///"` and does not
end in `"/"`, and a metadata tuple in range, decoding the encoded line gives
no error and the record with `Name = rel`, the size, mtime, permissions, uid
and gid of the tuple, and the two flags derived from the raw mode. -/
theorem line_roundtrip (root rel : GoString) (size : Nat) (mtime : Int) (rawMode perm uid gid : Nat)
    (hrel : rel ≠ []) (hno : ¬ delimiter <:+: root ++ rel) (hend : (root ++ rel).getLast? ≠ some 47)
    (hsize : size < 2 ^ 63) (hmtime : -(2 ^ 63 : Int) ≤ mtime ∧ mtime < 2 ^ 63)
    (hraw : rawMode < 2 ^ 32) (hperm : perm ≤ 0o7777) (huid : uid < 2 ^ 31) (hgid : gid < 2 ^ 31) :
    parseFileInformation (encodeLine (root ++ rel) size mtime rawMode perm uid gid) root =
      some (some { Name := rel, Size := size, Mtime := mtime,
                   IsSymbolicLink := decide (rawMode &&& 0o120000 = 0o120000),
                   IsDirectory := decide (rawMode &&& 0o040000 = 0o040000),
                   RemoteMode := perm, RemoteUID := uid, RemoteGID := gid }, none) :=
  roundtrip_core root rel size mtime rawMode perm uid gid hrel hno hend ⟨by omega, by omega⟩ hmtime
    hraw (by omega) ⟨by omega, by omega⟩ ⟨by omega, by omega⟩

/-- Witness of C1: root `/data`, line
`/data/a.txt///12,1690000000,81a4,644,1000,1000`. -/
theorem line_roundtrip_witness :
    encodeLine (bytes "/data" ++ bytes "/a.txt") (12 : Nat) 1690000000 0x81a4 0o644 (1000 : Nat)
      (1000 : Nat) = bytes "/data/a.txt///12,1690000000,81a4,644,1000,1000" ∧
    bytes "/a.txt" ≠ [] ∧ ¬ delimiter <:+: bytes "/data" ++ bytes "/a.txt" ∧
    (bytes "/data" ++ bytes "/a.txt").getLast? ≠ some 47 ∧
    parseFileInformation
      (encodeLine (bytes "/data" ++ bytes "/a.txt") (12 : Nat) 1690000000 0x81a4 0o644 (1000 : Nat)
        (1000 : Nat)) (bytes "/data") =
      some (some { Name := bytes "/a.txt", Size := 12, Mtime := 1690000000,
                   IsSymbolicLink := false, IsDirectory := false,
                   RemoteMode := 0o644, RemoteUID := 1000, RemoteGID := 1000 }, none) :=
  ⟨by decide, by decide, by decide, by decide,
   line_roundtrip (bytes "/data") (bytes "/a.txt") 12 1690000000 0x81a4 0o644 1000 1000
     (by decide) (by decide) (by decide) (by decide) (by decide) (by decide) (by decide)
     (by decide) (by decide)⟩

/-! ## The command text -/

/-- The command of `getFindCommand` is the instantiated template and a line
feed. -/
theorem getFindCommand_eq (EndAck ErrorAck destPath : GoString) :
    getFindCommand EndAck ErrorAck destPath = commandText EndAck ErrorAck destPath ++ [10] := by
  have h : bytes "\"\n" = bytes "\"" ++ [10] := by decide
  unfold getFindCommand commandText instantiate commandTemplate
  rw [h]
  simp [List.flatMap, List.append_assoc]

/-- C11 as stated fails: the command `getFindCommand` builds is not the text
of the template; it is one byte longer, the line feed the function appends
behind the last quotation mark. -/
theorem command_text_has_line_feed :
    getFindCommand (bytes "DONE") (bytes "ERROR") (bytes "/data") ≠
      commandText (bytes "DONE") (bytes "ERROR") (bytes "/data") ∧
    (getFindCommand (bytes "DONE") (bytes "ERROR") (bytes "/data")).length =
      (commandText (bytes "DONE") (bytes "ERROR") (bytes "/data")).length + 1 ∧
    (getFindCommand (bytes "DONE") (bytes "ERROR") (bytes "/data")).getLast? = some 10 := by
  have h := getFindCommand_eq (bytes "DONE") (bytes "ERROR") (bytes "/data")
  refine ⟨fun heq => ?_, by rw [h]; simp, by rw [h]; simp⟩
  rw [h] at heq
  have hl := congrArg List.length heq
  simp at hl

/-- C11 (command text), amended. For every root path and every pair of
sentinels, `getFindCommand` is the template text with the root path put in
verbatim at both places and the two sentinels at theirs, followed by one line
feed. -/
theorem command_text (EndAck ErrorAck destPath : GoString) :
    getFindCommand EndAck ErrorAck destPath = commandText EndAck ErrorAck destPath ++ [10] ∧
    commandText EndAck ErrorAck destPath =
      bytes "mkdir -p '" ++ destPath ++ bytes "' && find '" ++ destPath ++
        bytes "' -exec stat -c \"%n///%s,%Y,%f,%a,%u,%g\" \x7b\x7d + 2>/dev/null && echo -n \"" ++
        EndAck ++ bytes "\" || echo \"" ++ ErrorAck ++ bytes "\"" := by
  refine ⟨getFindCommand_eq EndAck ErrorAck destPath, ?_⟩
  unfold commandText instantiate commandTemplate
  simp [List.flatMap, List.append_assoc]

/-! ## The sign of the size -/

/-- C12 as stated fails: a size field with a minus sign is a well-formed
decimal numeral for `Atoi`, and the record holds the negative value. -/
theorem negative_size_is_decoded :
    parseFileInformation (bytes "/data/a.txt///-5,1690000000,81a4,644,1000,1000") (bytes "/data") =
      some (some ⟨bytes "/a.txt", -5, 1690000000, false, false, 0o644, 1000, 1000⟩, none) ∧
    ¬ (0 ≤ (⟨bytes "/a.txt", -5, 1690000000, false, false, 0o644, 1000, 1000⟩ :
      fileInformation).Size) := by
  decide

/-- C12 (size is non-negative), amended. The `Size` of a returned record is the
value of the size field within the 64-bit range, and it is non-negative
whenever the size field does not begin with a minus sign. -/
theorem size_nonnegative_without_sign (fileline destPath : GoString) (info : fileInformation)
    (err : Option Error) (h : parseFileInformation fileline destPath = some (some info, err))
    (hs : isNegative (field fileline 0) = false) :
    0 ≤ info.Size ∧ info.Size < 2 ^ 63 ∧ info.Size = intValue 10 (field fileline 0) := by
  obtain ⟨_, _, _, _, hr, hinfo, _⟩ := parse_record fileline destPath info err h
  have hv : info.Size = intValue 10 (field fileline 0) := by rw [hinfo]
  refine ⟨?_, by rw [hv]; exact hr.1.2, hv⟩
  rw [hv]
  unfold intValue
  rw [hs]
  simp

/-- Witness of C12: root `/data`, line
`/data/a.txt///12,1690000000,81a4,644,1000,1000`. -/
theorem size_nonnegative_without_sign_witness :
    parseFileInformation (bytes "/data/a.txt///12,1690000000,81a4,644,1000,1000") (bytes "/data") =
      some (some ⟨bytes "/a.txt", 12, 1690000000, false, false, 0o644, 1000, 1000⟩, none) ∧
    isNegative (field (bytes "/data/a.txt///12,1690000000,81a4,644,1000,1000") 0) = false ∧
    (0 ≤ (12 : Int) ∧ (12 : Int) < 2 ^ 63 ∧
      (12 : Int) = intValue 10 (field (bytes "/data/a.txt///12,1690000000,81a4,644,1000,1000") 0)) :=
  ⟨by decide, by decide,
   size_nonnegative_without_sign _ (bytes "/data")
     ⟨bytes "/a.txt", 12, 1690000000, false, false, 0o644, 1000, 1000⟩ none (by decide)
     (by decide)⟩

/-! ## Errors of the conversions on well-formed numerals -/

/-- On digits of the base the digit loop can only fail with a range error. -/
theorem parseUintLoop_error_range (base cutoff maxVal : Nat) (s0 : GoString) (s : GoString)
    (hs : ∀ c ∈ s, accepts base c) :
    ∀ n u e, parseUintLoop base cutoff maxVal s0 n s = (u, some e) → e.Err = ParseErr.ErrRange := by
  induction s with
  | nil => intro n u e h; simp [parseUintLoop] at h
  | cons c cs ih =>
    intro n u e h
    obtain ⟨d, hd, hlt⟩ := hs c (List.mem_cons_self _ _)
    unfold parseUintLoop at h
    simp only [hd] at h
    have h1 : ¬ d ≥ base := by omega
    simp only [h1, if_false] at h
    split_ifs at h
    · simp only [Prod.mk.injEq, Option.some.injEq] at h
      rw [← h.2]; rfl
    · simp only [Prod.mk.injEq, Option.some.injEq] at h
      rw [← h.2]; rfl
    · exact ih (fun x hx => hs x (List.mem_cons_of_mem _ hx)) _ u e h

theorem ParseUint_error_range (s : GoString) (base bitSize u : Nat) (e : NumError)
    (hb : 2 ≤ base ∧ base ≤ 36) (hbs : bitSize ≤ 64) (hne : s ≠ [])
    (hs : ∀ c ∈ s, accepts base c) (h : ParseUint s base bitSize = (u, some e)) :
    e.Err = ParseErr.ErrRange := by
  unfold ParseUint at h
  have h1 : ¬ ¬ (2 ≤ base ∧ base ≤ 36) := not_not.mpr hb
  have h2 : ¬ bitSize > 64 := by omega
  simp only [hne, if_false, h1, h2] at h
  exact parseUintLoop_error_range _ _ _ _ s hs _ _ _ h

theorem ParseInt_error_range (s : GoString) (base bitSize : Nat) (i : Int) (e : NumError)
    (hb : 2 ≤ base ∧ base ≤ 36) (hbs : bitSize ≤ 64) (hne : digitsPart s ≠ [])
    (hs : ∀ x ∈ digitsPart s, accepts base x) (h : ParseInt s base bitSize = (i, some e)) :
    e.Err = ParseErr.ErrRange := by
  cases s with
  | nil => exact absurd rfl hne
  | cons c rest =>
    unfold ParseInt at h
    simp only [digitsPart_cons] at h
    rcases hres : ParseUint (digitsPart (c :: rest)) base bitSize with ⟨un, _ | e'⟩
    · rw [hres] at h
      simp only at h
      split_ifs at h <;> simp only [Prod.mk.injEq, Option.some.injEq, reduceCtorEq, and_false] at h
      all_goals (rw [← h.2]; rfl)
    · rw [hres] at h
      have hr := ParseUint_error_range _ base bitSize un e' hb hbs hne hs hres
      simp only [hr, ne_eq, not_true_eq_false, if_false] at h
      split_ifs at h <;> simp only [Prod.mk.injEq, Option.some.injEq, reduceCtorEq, and_false] at h
      all_goals (rw [← h.2]; rfl)

theorem Atoi_error_range (s : GoString) (i : Int) (e : NumError)
    (hw : IsSignedNumeral isDecDigit s) (h : Atoi s = (i, some e)) : e.Err = ParseErr.ErrRange := by
  obtain ⟨hne, hs⟩ := (isSignedNumeral_dec_iff s).mp hw
  have hslow : ∀ r : Int × Option NumError, (∀ j e', r = (j, some e') → e'.Err = ParseErr.ErrRange) →
      (match r with
        | (i64, some nerr) => (i64, some (⟨"Atoi", nerr.Num, nerr.Err⟩ : NumError))
        | (i64, none) => (i64, none)) = (i, some e) → e.Err = ParseErr.ErrRange := by
    rintro ⟨j, _ | e'⟩ hr hm
    · simp at hm
    · simp only [Prod.mk.injEq, Option.some.injEq] at hm
      rw [← hm.2]
      exact hr j e' rfl
  have hpi : ∀ j e', ParseInt s 10 0 = (j, some e') → e'.Err = ParseErr.ErrRange :=
    fun j e' hp => ParseInt_error_range s 10 0 j e' (by omega) (by omega) hne hs hp
  cases s with
  | nil => exact absurd rfl hne
  | cons c rest =>
    unfold Atoi at h
    simp only [List.length_cons] at h
    by_cases hlen : rest.length + 1 < 19
    · exfalso
      have hfast : (intSize = 32 ∧ (0 < rest.length + 1 ∧ rest.length + 1 < 10)) ∨
          (intSize = 64 ∧ (0 < rest.length + 1 ∧ rest.length + 1 < 19)) :=
        Or.inr ⟨rfl, by omega, hlen⟩
      simp only [hfast, if_true] at h
      have hok : ∃ v, Atoi (c :: rest) = (v, none) :=
        ⟨intValue 10 (c :: rest), (Atoi_ok (c :: rest) _).mpr ⟨hne, hs, rfl, by
          have hl : (digitsPart (c :: rest)).length ≤ 18 := by
            show (if c = 43 ∨ c = 45 then rest else c :: rest).length ≤ 18
            split_ifs
            · omega
            · rw [List.length_cons]; omega
          have hv := natValue_lt _ hs hl
          have h1018 : (10 : Nat) ^ 18 < 2 ^ 63 := by norm_num
          unfold intValue
          split_ifs <;> simp only [Int.ofNat_eq_coe] <;> omega⟩⟩
      obtain ⟨v, hv⟩ := hok
      unfold Atoi at hv
      simp only [List.length_cons, hfast, if_true] at hv
      rw [hv] at h
      simp at h
    · have hfast : ¬ ((intSize = 32 ∧ (0 < rest.length + 1 ∧ rest.length + 1 < 10)) ∨
          (intSize = 64 ∧ (0 < rest.length + 1 ∧ rest.length + 1 < 19))) := by
        unfold intSize; omega
      simp only [hfast, if_false] at h
      exact hslow _ hpi h

/-! ## The error sentinel in the stream -/

theorem recordsOf_cons_record (destPath line : GoString) (rest : List GoString)
    (info : fileInformation) (err : Option Error)
    (h : parseFileInformation line destPath = some (some info, err)) :
    recordsOf destPath (line :: rest) = info :: recordsOf destPath rest := by
  simp [recordsOf, List.filterMap_cons, h]

theorem recordsOf_cons_skip (destPath line : GoString) (rest : List GoString) (err : Option Error)
    (h : parseFileInformation line destPath = some (none, err)) :
    recordsOf destPath (line :: rest) = recordsOf destPath rest := by
  simp [recordsOf, List.filterMap_cons, h]

theorem recordsOf_length_le (destPath : GoString) (lines : List GoString) :
    (recordsOf destPath lines).length ≤ lines.length :=
  List.length_filterMap_le _ _

/-- The stream decoder on valid lines followed by the error sentinel: the
records of the lines, then the remote-traversal error; what stands behind the
sentinel is not read. -/
theorem decodeStream_error_sentinel (EndAck ErrorAck destPath : GoString) (after : List GoString)
    (hne : ErrorAck ≠ EndAck) (lines : List GoString)
    (hv : ∀ l ∈ lines, ValidLine EndAck ErrorAck destPath l) :
    decodeStream EndAck ErrorAck destPath (lines ++ ErrorAck :: after) =
      some (recordsOf destPath lines, some StreamError.remoteTraversal) := by
  induction lines with
  | nil => simp [decodeStream, hne, recordsOf]
  | cons line rest ih =>
    obtain ⟨h1, h2, r, hr⟩ := hv line (List.mem_cons_self _ _)
    have ih' := ih (fun l hl => hv l (List.mem_cons_of_mem _ hl))
    rw [List.cons_append, decodeStream]
    simp only [h1, h2, if_false, hr]
    cases r with
    | none => rw [ih', recordsOf_cons_skip destPath line rest none hr]
    | some info => rw [ih', recordsOf_cons_record destPath line rest info none hr]; rfl

/-- C13 (error sentinel ends the stream with a distinct error). On a stream of
valid listing lines followed by the error sentinel the stream decoder yields
the records of those lines, at most one per line, and ends with the
remote-traversal error, which is not a malformed-line error; whatever stands
behind the sentinel yields nothing. -/
theorem error_sentinel_ends_stream (EndAck ErrorAck destPath : GoString)
    (lines after : List GoString) (hne : ErrorAck ≠ EndAck)
    (hv : ∀ l ∈ lines, ValidLine EndAck ErrorAck destPath l) :
    decodeStream EndAck ErrorAck destPath (lines ++ ErrorAck :: after) =
      some (recordsOf destPath lines, some StreamError.remoteTraversal) ∧
    (recordsOf destPath lines).length ≤ lines.length ∧
    (∀ line, StreamError.remoteTraversal ≠ StreamError.decode (wrongFileline line)) :=
  ⟨decodeStream_error_sentinel EndAck ErrorAck destPath after hne lines hv,
    recordsOf_length_le destPath lines, fun _ h => StreamError.noConfusion h⟩

/-- Witness of C13: the root entry and one file, the error sentinel, and one
more line behind it. -/
theorem error_sentinel_ends_stream_witness :
    bytes "ERROR" ≠ bytes "DONE" ∧
    (∀ l ∈ [bytes "/data///4096,1690000000,41ed,755,0,0",
        bytes "/data/a.txt///12,1690000000,81a4,644,1000,1000"],
      ValidLine (bytes "DONE") (bytes "ERROR") (bytes "/data") l) ∧
    (decodeStream (bytes "DONE") (bytes "ERROR") (bytes "/data")
        ([bytes "/data///4096,1690000000,41ed,755,0,0",
          bytes "/data/a.txt///12,1690000000,81a4,644,1000,1000"] ++
          bytes "ERROR" :: [bytes "/data/b.txt///1,1690000000,81a4,644,0,0"]) =
      some (recordsOf (bytes "/data") [bytes "/data///4096,1690000000,41ed,755,0,0",
        bytes "/data/a.txt///12,1690000000,81a4,644,1000,1000"],
        some StreamError.remoteTraversal) ∧
      (recordsOf (bytes "/data") [bytes "/data///4096,1690000000,41ed,755,0,0",
        bytes "/data/a.txt///12,1690000000,81a4,644,1000,1000"]).length ≤
        [bytes "/data///4096,1690000000,41ed,755,0,0",
          bytes "/data/a.txt///12,1690000000,81a4,644,1000,1000"].length ∧
      (∀ line, StreamError.remoteTraversal ≠ StreamError.decode (wrongFileline line))) ∧
    recordsOf (bytes "/data") [bytes "/data///4096,1690000000,41ed,755,0,0",
        bytes "/data/a.txt///12,1690000000,81a4,644,1000,1000"] =
      [⟨bytes "/a.txt", 12, 1690000000, false, false, 0o644, 1000, 1000⟩] :=
  have hv : ∀ l ∈ [bytes "/data///4096,1690000000,41ed,755,0,0",
      bytes "/data/a.txt///12,1690000000,81a4,644,1000,1000"],
      ValidLine (bytes "DONE") (bytes "ERROR") (bytes "/data") l := by
    intro l hl
    simp only [List.mem_cons, List.mem_singleton, List.not_mem_nil, or_false] at hl
    rcases hl with rfl | rfl
    · exact ⟨by decide, by decide, none, by decide⟩
    · exact ⟨by decide, by decide,
        some ⟨bytes "/a.txt", 12, 1690000000, false, false, 0o644, 1000, 1000⟩, by decide⟩
  ⟨by decide, hv,
   error_sentinel_ends_stream (bytes "DONE") (bytes "ERROR") (bytes "/data") _
     [bytes "/data/b.txt///1,1690000000,81a4,644,0,0"] (by decide) hv,
   by decide⟩

/-! ## Overflow -/

/-- C14 (overflow is rejected, not wrapped). On a line with two parts, a path
part longer than the root and six well-formed fields: if the value of a field
is outside the range of its conversion the decoder returns no record and the
traced range error of a conversion; and a returned record means that every
field is within range and holds the values of the numerals unchanged. -/
theorem overflow_is_rejected (fileline destPath t0 t1 f0 f1 f2 f3 f4 f5 : GoString)
    (h1 : Split fileline delimiter = [t0, t1]) (h2 : destPath.length < t0.length)
    (h3 : Split t1 comma = [f0, f1, f2, f3, f4, f5])
    (hw : WellFormedFields f0 f1 f2 f3 f4 f5) :
    (¬ FieldsInRange f0 f1 f2 f3 f4 f5 →
      ∃ e : NumError, parseFileInformation fileline destPath = some (none, some (Error.Trace e)) ∧
        e.Err = ParseErr.ErrRange) ∧
    (∀ info err, parseFileInformation fileline destPath = some (some info, err) →
      FieldsInRange f0 f1 f2 f3 f4 f5 ∧ info.Size = intValue 10 f0 ∧ info.Mtime = intValue 10 f1 ∧
      info.RemoteMode = intValue 8 f3 ∧ info.RemoteUID = intValue 10 f4 ∧
      info.RemoteGID = intValue 10 f5 ∧
      info.IsSymbolicLink = decide (natValue 16 f2 &&& 0o120000 = 0o120000) ∧
      info.IsDirectory = decide (natValue 16 f2 &&& 0o040000 = 0o040000)) := by
  rw [parse_of_split fileline destPath t0 t1 f0 f1 f2 f3 f4 f5 h1 h2 h3]
  constructor
  · intro hr
    rcases parseFields_total (t0.drop destPath.length) f0 f1 f2 f3 f4 f5 with ⟨info, hi⟩ | ⟨e, he⟩
    · exact absurd ((parseFields_numerals _ _ _ _ _ _ _ _ _).mp hi).2.1 hr
    · refine ⟨e, he, ?_⟩
      obtain ⟨e', he1, he2⟩ := parseFields_no_record _ _ _ _ _ _ _ _ he
      simp only [Option.some.injEq, Error.Trace.injEq] at he1
      subst he1
      obtain ⟨w0, w1, w2, w3, w4, w5⟩ := hw
      have w2' := (isNumeral_hex_iff f2).mp w2
      have w3' := (isSignedNumeral_oct_iff f3).mp w3
      rcases he2 with ⟨v, hv⟩ | ⟨v, hv⟩ | ⟨v, hv⟩ | ⟨v, hv⟩ | ⟨v, hv⟩ | ⟨v, hv⟩
      · exact Atoi_error_range f0 v e w0 hv
      · exact Atoi_error_range f1 v e w1 hv
      · exact ParseUint_error_range f2 16 32 v e (by omega) (by omega) w2'.1 w2'.2 hv
      · exact ParseInt_error_range f3 8 32 v e (by omega) (by omega) w3'.1 w3'.2 hv
      · exact Atoi_error_range f4 v e w4 hv
      · exact Atoi_error_range f5 v e w5 hv
  · intro info err h
    obtain ⟨_, hr, hinfo, _⟩ := (parseFields_numerals _ _ _ _ _ _ _ _ _).mp h
    rw [hinfo]
    exact ⟨hr, rfl, rfl, rfl, rfl, rfl, rfl, rfl⟩

/-- Witness of C14: the raw mode `100000000` is `2 ^ 32` in base 16. -/
theorem overflow_is_rejected_witness :
    Split (bytes "/data/a.txt///12,1690000000,100000000,644,1000,1000") delimiter =
      [bytes "/data/a.txt", bytes "12,1690000000,100000000,644,1000,1000"] ∧
    (bytes "/data").length < (bytes "/data/a.txt").length ∧
    Split (bytes "12,1690000000,100000000,644,1000,1000") comma =
      [bytes "12", bytes "1690000000", bytes "100000000", bytes "644", bytes "1000", bytes "1000"] ∧
    WellFormedFields (bytes "12") (bytes "1690000000") (bytes "100000000") (bytes "644")
      (bytes "1000") (bytes "1000") ∧
    ¬ FieldsInRange (bytes "12") (bytes "1690000000") (bytes "100000000") (bytes "644")
      (bytes "1000") (bytes "1000") ∧
    ∃ e : NumError,
      parseFileInformation (bytes "/data/a.txt///12,1690000000,100000000,644,1000,1000")
        (bytes "/data") = some (none, some (Error.Trace e)) ∧ e.Err = ParseErr.ErrRange :=
  ⟨by decide, by decide, by decide, by decide, by decide,
   (overflow_is_rejected _ (bytes "/data") (bytes "/data/a.txt")
     (bytes "12,1690000000,100000000,644,1000,1000") (bytes "12") (bytes "1690000000")
     (bytes "100000000") (bytes "644") (bytes "1000") (bytes "1000") (by decide) (by decide)
     (by decide) (by decide)).1 (by decide)⟩

/-! ## Delimiter recovery -/

theorem append_delimiter_eq (p m : GoString) : p ++ delimiter ++ m = p ++ 47 :: 47 :: 47 :: m := by
  rw [delimiter_def, List.append_assoc]
  rfl

/-- C15 (delimiter recovery when the path does not end in a slash). For a path
`p = root ++ rel` with `rel` not empty that contains no `"///"` and does not
end in `"/"`, and the canonical metadata part `m` of a tuple in range: `m`
contains no `"/"`, the line `p ++ "///" ++ m` splits on `"///"` into exactly
`[p, m]`, and the decoder returns the record with `Name = rel` and the six
values of the tuple, and no error. -/
theorem delimiter_recovery (root rel : GoString) (size : Nat) (mtime : Int)
    (rawMode perm uid gid : Nat) (hrel : rel ≠ []) (hno : ¬ delimiter <:+: root ++ rel)
    (hend : (root ++ rel).getLast? ≠ some 47) (hsize : size < 2 ^ 63)
    (hmtime : -(2 ^ 63 : Int) ≤ mtime ∧ mtime < 2 ^ 63) (hraw : rawMode < 2 ^ 32)
    (hperm : perm ≤ 0o7777) (huid : uid < 2 ^ 31) (hgid : gid < 2 ^ 31) :
    (47 : UInt8) ∉ encodeMeta size mtime rawMode perm uid gid ∧
    Split (root ++ rel ++ delimiter ++ encodeMeta size mtime rawMode perm uid gid) delimiter =
      [root ++ rel, encodeMeta size mtime rawMode perm uid gid] ∧
    parseFileInformation (root ++ rel ++ delimiter ++ encodeMeta size mtime rawMode perm uid gid)
        root =
      some (some { Name := rel, Size := size, Mtime := mtime,
                   IsSymbolicLink := decide (rawMode &&& 0o120000 = 0o120000),
                   IsDirectory := decide (rawMode &&& 0o040000 = 0o040000),
                   RemoteMode := perm, RemoteUID := uid, RemoteGID := gid }, none) := by
  have hline : root ++ rel ++ delimiter ++ encodeMeta size mtime rawMode perm uid gid =
      encodeLine (root ++ rel) size mtime rawMode perm uid gid := by
    rw [append_delimiter_eq, encodeLine_eq]
  rw [hline]
  exact ⟨encodeMeta_no_slash _ _ _ _ _ _,
    encodeLine_split (root ++ rel) size mtime rawMode perm uid gid hno hend,
    roundtrip_core root rel size mtime rawMode perm uid gid hrel hno hend ⟨by omega, by omega⟩
      hmtime hraw (by omega) ⟨by omega, by omega⟩ ⟨by omega, by omega⟩⟩

/-- Witness of C15: root `/srv/app`, path `/srv/app/dir/b c.log`, a negative
modification time. -/
theorem delimiter_recovery_witness :
    bytes "/dir/b c.log" ≠ [] ∧ ¬ delimiter <:+: bytes "/srv/app" ++ bytes "/dir/b c.log" ∧
    (bytes "/srv/app" ++ bytes "/dir/b c.log").getLast? ≠ some 47 ∧
    bytes "/srv/app" ++ bytes "/dir/b c.log" ++ delimiter ++ encodeMeta (0 : Nat) (-86400) 0x81ed
      0o755 (0 : Nat) (65534 : Nat) = bytes "/srv/app/dir/b c.log///0,-86400,81ed,755,0,65534" ∧
    ((47 : UInt8) ∉ encodeMeta (0 : Nat) (-86400) 0x81ed 0o755 (0 : Nat) (65534 : Nat) ∧
      Split (bytes "/srv/app" ++ bytes "/dir/b c.log" ++ delimiter ++
          encodeMeta (0 : Nat) (-86400) 0x81ed 0o755 (0 : Nat) (65534 : Nat)) delimiter =
        [bytes "/srv/app" ++ bytes "/dir/b c.log",
          encodeMeta (0 : Nat) (-86400) 0x81ed 0o755 (0 : Nat) (65534 : Nat)] ∧
      parseFileInformation (bytes "/srv/app" ++ bytes "/dir/b c.log" ++ delimiter ++
          encodeMeta (0 : Nat) (-86400) 0x81ed 0o755 (0 : Nat) (65534 : Nat)) (bytes "/srv/app") =
        some (some { Name := bytes "/dir/b c.log", Size := 0, Mtime := -86400,
                     IsSymbolicLink := false, IsDirectory := false,
                     RemoteMode := 0o755, RemoteUID := 0, RemoteGID := 65534 }, none)) :=
  ⟨by decide, by decide, by decide, by decide,
   delimiter_recovery (bytes "/srv/app") (bytes "/dir/b c.log") 0 (-86400) 0x81ed 0o755 0 65534
     (by decide) (by decide) (by decide) (by decide) (by decide) (by decide) (by decide)
     (by decide) (by decide)⟩

/-! ## Symbolic links -/

/-- C16 (symbolic links are classified exactly on POSIX modes). In a record
decoded from a raw mode whose file-type bits are one of the seven POSIX file
types, `IsSymbolicLink` is true exactly when the file-type bits are
`0o120000`. -/
theorem symlink_exact_on_posix_modes (fileline destPath : GoString) (info : fileInformation)
    (err : Option Error) (h : parseFileInformation fileline destPath = some (some info, err))
    (hp : natValue 16 (field fileline 2) &&& typeMask ∈ posixTypes) :
    info.IsSymbolicLink = true ↔ natValue 16 (field fileline 2) &&& typeMask = 0o120000 := by
  obtain ⟨_, _, _, _, _, hinfo, _⟩ := parse_record fileline destPath info err h
  rw [hinfo]
  simp only [decide_eq_true_eq]
  rw [land_typeMask _ IsSymbolicLink (by decide)]
  unfold posixTypes at hp
  simp only [List.mem_cons, List.mem_singleton, List.not_mem_nil, or_false] at hp
  rcases hp with hp | hp | hp | hp | hp | hp | hp <;> rw [hp] <;> decide

/-- Witness of C16: a symbolic link, raw mode `0xa1ff = 0o120777`, and a
socket, raw mode `0xc1ed = 0o140755`. -/
theorem symlink_exact_on_posix_modes_witness :
    (natValue 16 (field (bytes "/data/link///7,1690000000,a1ff,777,0,0") 2) &&& typeMask
        ∈ posixTypes ∧
      ((true : Bool) = true ↔
        natValue 16 (field (bytes "/data/link///7,1690000000,a1ff,777,0,0") 2) &&& typeMask
          = 0o120000)) ∧
    (natValue 16 (field (bytes "/data/app.sock///0,1690000000,c1ed,755,0,0") 2) &&& typeMask
        ∈ posixTypes ∧
      ((false : Bool) = true ↔
        natValue 16 (field (bytes "/data/app.sock///0,1690000000,c1ed,755,0,0") 2) &&& typeMask
          = 0o120000)) :=
  ⟨⟨by decide,
    symlink_exact_on_posix_modes (bytes "/data/link///7,1690000000,a1ff,777,0,0") (bytes "/data")
      ⟨bytes "/link", 7, 1690000000, true, false, 0o777, 0, 0⟩ none (by decide) (by decide)⟩,
   ⟨by decide,
    symlink_exact_on_posix_modes (bytes "/data/app.sock///0,1690000000,c1ed,755,0,0")
      (bytes "/data") ⟨bytes "/app.sock", 0, 1690000000, false, true, 0o755, 0, 0⟩ none
      (by decide) (by decide)⟩⟩

/-! ## Totality -/

/-- C17 (the decoder is total). For every line and root the decoder does not
panic and returns one of three outcomes: a record and no error, neither record
nor error, or no record and an error. The slice `t[0][len(root):]` and the
indexings of the split parts it evaluates are within range: the slice whenever
`len(t[0]) > len(root)`, `t[0]` and `t[1]` whenever there are two parts, fields
0..5 whenever there are six. -/
theorem decoder_is_total (fileline destPath : GoString) :
    parseFileInformation fileline destPath ≠ none ∧
    ((∃ info, parseFileInformation fileline destPath = some (some info, none)) ∨
      parseFileInformation fileline destPath = some (none, none) ∨
      (∃ e, parseFileInformation fileline destPath = some (none, some e))) ∧
    (∀ t0 : GoString, destPath.length < t0.length →
      sliceFrom t0 destPath.length = some (t0.drop destPath.length)) ∧
    (∀ t : List GoString, t.length = 2 → (index t 0).isSome ∧ (index t 1).isSome) ∧
    (∀ t : List GoString, t.length = 6 → ∀ i, i < 6 → (index t i).isSome) := by
  have hcases : (∃ info, parseFileInformation fileline destPath = some (some info, none)) ∨
      parseFileInformation fileline destPath = some (none, none) ∨
      (∃ e, parseFileInformation fileline destPath = some (none, some e)) := by
    rcases parse_cases fileline destPath with ⟨_, h1⟩ | ⟨_, _, _, _, h1⟩ | ⟨_, _, _, _, _, h1⟩ |
      ⟨t0, t1, f0, f1, f2, f3, f4, f5, _, _, _, h1⟩
    · exact Or.inr (Or.inr ⟨_, h1⟩)
    · exact Or.inr (Or.inl h1)
    · exact Or.inr (Or.inr ⟨_, h1⟩)
    · rw [h1]
      rcases parseFields_total (t0.drop destPath.length) f0 f1 f2 f3 f4 f5 with ⟨info, hi⟩ | ⟨e, he⟩
      · exact Or.inl ⟨info, hi⟩
      · exact Or.inr (Or.inr ⟨_, he⟩)
  refine ⟨?_, hcases, ?_, ?_, ?_⟩
  · rcases hcases with ⟨_, h⟩ | h | ⟨_, h⟩ <;> rw [h] <;> simp
  · intro t0 h
    unfold sliceFrom
    rw [if_pos (by omega)]
  · intro t h
    obtain ⟨a, b, rfl⟩ := List.length_eq_two.mp h
    exact ⟨rfl, rfl⟩
  · intro t h i hi
    obtain ⟨a, b, c, d, e, f, rfl⟩ := length_eq_six h
    unfold index
    rw [List.getElem?_eq_getElem (by simpa using hi)]
    rfl

/-! ## The root path -/

/-- C18 (the root path influences decoding only through its length). Two root
paths of the same length give the same outcome for every line: the same
record, the same skip or the same error. -/
theorem root_only_through_length (fileline r1 r2 : GoString) (h : r1.length = r2.length) :
    parseFileInformation fileline r1 = parseFileInformation fileline r2 := by
  unfold parseFileInformation sliceFrom
  rw [h]

/-- Witness of C18: the roots `/data` and `/xxxx` on a line whose path begins
with the first of them only. -/
theorem root_only_through_length_witness :
    (bytes "/data").length = (bytes "/xxxx").length ∧
    parseFileInformation (bytes "/data/a.txt///12,1690000000,81a4,644,1000,1000") (bytes "/data") =
      parseFileInformation (bytes "/data/a.txt///12,1690000000,81a4,644,1000,1000")
        (bytes "/xxxx") ∧
    parseFileInformation (bytes "/data/a.txt///12,1690000000,81a4,644,1000,1000") (bytes "/xxxx") =
      some (some ⟨bytes "/a.txt", 12, 1690000000, false, false, 0o644, 1000, 1000⟩, none) :=
  ⟨by decide,
   root_only_through_length (bytes "/data/a.txt///12,1690000000,81a4,644,1000,1000")
     (bytes "/data") (bytes "/xxxx") (by decide),
   by decide⟩

end Sync
